import Mathlib

/-!
Verification development for the semantic-release core
(`leoslf/semantic-release`).

The JavaScript sources are embedded shallowly:

* `src/lib/definitions/constants.js` — the constants, the `inc` wrapper and
  the default-exported next-version calculator (`getNextVersion` below);
* `src/lib/definitions/branches.js` — branch classification filters and
  validators (`maintenanceFilter`, `acceptedBranches`, …);
* `src/lib/branches/get-tags.js` — the tag/channel resolver
  (`matchCapture`, `tagFilterStep`, …);
* `src/lib/git.js` (`getNote`) — metadata-note reading and deep merge
  (`jmerge`, `getNote`);
* `src/index.js` — the release pipeline orchestrator (`run`,
  `runAndHandle`), modelled as a function from an environment of external
  outcomes (git subprocess results, plugin step results) to an event trace
  plus a final result.

Machine strings holding semantic versions are modelled structurally by
`SemVer` (numeric triple plus prerelease identifier list); where the code
manipulates raw strings (tag parsing, validity checks) a string-level
parser `semverValidStr` mirrors the `semver` package's strict grammar.
Helper functions that live in modules of this repository that are not part
of the given sources (`lib/utils.js`, `lib/branches/index.js`,
`lib/get-release-to-add.js`, …) are modelled from the specification and
carry a doc comment saying so; their behaviour is cross-checked against
the in-tree test suite `src/test/get-next-version.test.js`.
-/

namespace SemRel

/-- A semver prerelease identifier: numeric or alphanumeric
(`semver` compares numeric identifiers numerically and below string
identifiers, string identifiers lexically). -/
inductive PreId where
  | num (n : Nat)
  | str (s : String)
deriving DecidableEq, Repr

/-- A parsed semantic version: numeric triple plus prerelease identifier
list (build metadata never influences this code and is not modelled). -/
structure SemVer where
  major : Nat
  minor : Nat
  patch : Nat
  pre : List PreId := []
deriving DecidableEq, Repr

/-- A distribution channel: `none` is the default (JS `null`) channel. -/
abbrev Chan := Option String

/-- `semver` precedence on single prerelease identifiers, as a strict
less-than: numeric before alphanumeric, numerics by value, strings
lexically by code point. -/
def preIdLt : PreId → PreId → Bool
  | .num n, .num m => n < m
  | .num _, .str _ => true
  | .str _, .num _ => false
  | .str s, .str t => s < t

/-- Strict greater-than on (non-empty) prerelease identifier lists:
identifier-wise, a longer list beats its proper prefix. -/
def preListGt : List PreId → List PreId → Bool
  | [], _ => false
  | _ :: _, [] => true
  | a :: as, b :: bs => if a = b then preListGt as bs else preIdLt b a

/-- `semver.gt`: strict precedence over versions.  The numeric triple is
compared first; at equal triples a version with no prerelease beats any
prerelease, and two prereleases compare by `preListGt`. -/
def semverGt (x y : SemVer) : Bool :=
  if x.major = y.major then
    if x.minor = y.minor then
      if x.patch = y.patch then
        match x.pre, y.pre with
        | [], [] => false
        | [], _ :: _ => true
        | _ :: _, [] => false
        | a, b => preListGt a b
      else decide (y.patch < x.patch)
    else decide (y.minor < x.minor)
  else decide (y.major < x.major)

/-- The release types fed to `semver.inc` by this code base: the three
bump sizes plus the `"prerelease"` increment used for the continuation
candidate. -/
inductive ReleaseType where
  | major
  | minor
  | patch
  | prerelease
deriving DecidableEq, Repr

/-- `src/lib/definitions/constants.js` line 3. -/
def DEFAULT_FIRST_RELEASE : SemVer := ⟨1, 0, 0, []⟩

/-- `src/lib/definitions/constants.js` line 5 (the string `"1"`, used as a
numeric prerelease base). -/
def DEFAULT_PRERELEASE_IDENTIFIER_BASE : Nat := 1

/-- The major-zero remap table of `inc`
(`src/lib/definitions/constants.js` lines 33–40): at major 0 a `major`
bump becomes `minor` and `minor`/`patch` become `patch`; every other
release type falls through the `?? release` default unchanged. -/
def dampen (major : Nat) (r : ReleaseType) : ReleaseType :=
  if major = 0 then
    match r with
    | .major => .minor
    | .minor => .patch
    | .patch => .patch
    | r => r
  else r

/-- Increment the last numeric identifier of a (reversed) prerelease list;
`none` when no identifier is numeric.  Mirrors the backwards scan of
`semver`'s `pre` increment. -/
def bumpLastNumRev : List PreId → Option (List PreId)
  | [] => none
  | .num n :: rest => some (.num (n + 1) :: rest)
  | .str s :: rest => (bumpLastNumRev rest).map (fun l => .str s :: l)

/-- `semver`'s `pre` step on a non-empty prerelease list called with no
identifier and an undefined base (as this code base always does): bump the
last numeric identifier, or append the base `0` when none is numeric. -/
def bumpLastNum (l : List PreId) : List PreId :=
  match bumpLastNumRev l.reverse with
  | some r => r.reverse
  | none => l ++ [.num 0]

/-- `semver.inc(version, release)` with no explicit identifier, for the
four release types this code base uses.  For `major`/`minor`/`patch` a
pending prerelease of the would-be-next version is released in place
instead of bumping again; `prerelease` on a non-prerelease version bumps
the patch and starts a `0` counter, on a prerelease it increments the
existing counter via `bumpLastNum`. -/
def semverIncRaw (v : SemVer) (r : ReleaseType) : SemVer :=
  match r with
  | .major =>
    if v.minor = 0 ∧ v.patch = 0 ∧ v.pre ≠ [] then ⟨v.major, 0, 0, []⟩
    else ⟨v.major + 1, 0, 0, []⟩
  | .minor =>
    if v.patch = 0 ∧ v.pre ≠ [] then ⟨v.major, v.minor, 0, []⟩
    else ⟨v.major, v.minor + 1, 0, []⟩
  | .patch =>
    if v.pre ≠ [] then ⟨v.major, v.minor, v.patch, []⟩
    else ⟨v.major, v.minor, v.patch + 1, []⟩
  | .prerelease =>
    if v.pre = [] then ⟨v.major, v.minor, v.patch + 1, [.num 0]⟩
    else ⟨v.major, v.minor, v.patch, bumpLastNum v.pre⟩

/-- The exported `inc` of `src/lib/definitions/constants.js`
(lines 30–42): parse, remap the release type through the major-zero table,
then `semver.inc`.  The `identifier`/`prereleaseIdentifierBase` parameters
are omitted because every call site of this code base leaves them
undefined. -/
def inc (v : SemVer) (r : ReleaseType) : SemVer :=
  semverIncRaw v (dampen v.major r)

/-- A resolved tag as the calculator consumes it: clean version plus
channel list. -/
structure CTag where
  version : SemVer
  channels : List Chan
deriving DecidableEq, Repr

/-- Branch policy types (`release` / `maintenance` / `prerelease`). -/
inductive BranchType where
  | release
  | maintenance
  | prerelease
deriving DecidableEq, Repr

/-- The slice of a branch record read by the calculator: its policy type,
its resolved prerelease identifier and its resolved tag list. -/
structure CBranch where
  btype : BranchType
  preId : String
  tags : List CTag
deriving DecidableEq, Repr

/-- The last-release record the calculator reads: an optional version and
the channel list recovered from the tag notes. -/
structure CLastRelease where
  version : Option SemVer := none
  channels : List Chan := []
deriving DecidableEq, Repr

/-- The calculator-relevant options
(`respectPackageJsonVersion`, `firstRelease`,
`prereleaseIdentifierBase`), with the defaults of
`src/lib/definitions/constants.js`. -/
structure CalcOptions where
  respectPackageJsonVersion : Bool := false
  firstRelease : SemVer := DEFAULT_FIRST_RELEASE
  prereleaseIdentifierBase : Nat := DEFAULT_PRERELEASE_IDENTIFIER_BASE
deriving DecidableEq, Repr

/-- The context destructured by the calculator's default export: branch,
requested bump type, target channel, last release, package version and
options. -/
structure CalcContext where
  branch : CBranch
  nrType : ReleaseType
  nrChannel : Chan
  lastRelease : CLastRelease
  packageVersion : SemVer := DEFAULT_FIRST_RELEASE
  options : CalcOptions := {}
deriving DecidableEq, Repr

/-- Modelled from the spec (§4.4, §4.5): `isSameChannel` from the
`lib/utils.js` module, which is not among the given sources — the channel
the new release targets is the same as a recorded one when the two names
agree, `none` standing for the default channel. -/
def isSameChannel (a b : Chan) : Bool := a == b

/-- Modelled from the spec (§4.4): `tagsToVersions` from `lib/utils.js` —
project a tag list to its version list. -/
def tagsToVersions (tags : List CTag) : List SemVer := tags.map (·.version)

/-- Modelled from the spec (§4.4): `highest` from `lib/utils.js` — the
semver-greater of two versions (the second on ties, matching
`gt(v1, v2) ? v1 : v2`). -/
def highest (a b : SemVer) : SemVer := if semverGt a b then a else b

/-- Modelled from the spec (§4.4): `getLatestVersion` from
`lib/utils.js`, as invoked with `withPrerelease: true` — the
semver-greatest element of the version list, prerelease versions
included; `none` on an empty list (where the JS sort yields
`undefined`).  Behaviour cross-checked against
`src/test/get-next-version.test.js`. -/
def getLatestVersion : List SemVer → Option SemVer
  | [] => none
  | v :: vs => some (vs.foldl (fun acc x => if semverGt x acc then x else acc) v)

/-- Append `-<identifier>.<base>` to a rendered version, as the template
strings of `get-next-version.js` do.  On a version with a pending
prerelease the dash merges into its last identifier (string semantics of
`"${v}-${id}.${base}"`); on the usual prerelease-free version this makes
the prerelease list `[identifier, base]`. -/
def withPre (v : SemVer) (id : String) (base : Nat) : SemVer :=
  let pre :=
    match v.pre.reverse with
    | [] => [PreId.str id]
    | .num n :: rest => (PreId.str (toString n ++ "-" ++ id) :: rest).reverse
    | .str s :: rest => (PreId.str (s ++ "-" ++ id) :: rest).reverse
  ⟨v.major, v.minor, v.patch, pre ++ [.num base]⟩

/-- Does the continuation candidate apply
(`src/lib/definitions/constants.js` lines 66–69): the last release is
itself a prerelease and one of its channels is the channel the new
release targets. -/
def continuationApplies (lastV : SemVer) (lastChannels : List Chan) (channel : Chan) : Bool :=
  lastV.pre ≠ [] ∧ lastChannels.any (fun c => isSameChannel c channel)

/-- The default export of `get-next-version.js`
(`src/lib/definitions/constants.js` lines 49–92).  `none` models the
TypeError the JS raises when the continuation branch scans an empty tag
list (`getLatestVersion` yields `undefined` and `semver.parse` crashes on
it). -/
def getNextVersion (ctx : CalcContext) : Option SemVer :=
  match ctx.lastRelease.version with
  | some lastV =>
    if ctx.branch.btype = .prerelease then
      if continuationApplies lastV ctx.lastRelease.channels ctx.nrChannel then
        match getLatestVersion (tagsToVersions ctx.branch.tags) with
        | none => none
        | some latest =>
          some (highest (inc lastV .prerelease)
            (withPre (inc latest ctx.nrType) ctx.branch.preId
              ctx.options.prereleaseIdentifierBase))
      else
        some (withPre (inc ⟨lastV.major, lastV.minor, lastV.patch, []⟩ ctx.nrType)
          ctx.branch.preId ctx.options.prereleaseIdentifierBase)
    else
      some (inc lastV ctx.nrType)
  | none =>
    let firstRelease :=
      if ctx.options.respectPackageJsonVersion then ctx.packageVersion
      else ctx.options.firstRelease
    some (if ctx.branch.btype = .prerelease then
      withPre firstRelease ctx.branch.preId ctx.options.prereleaseIdentifierBase
    else firstRelease)

/-- Strip a version to its numeric triple. -/
def stripPre (v : SemVer) : SemVer := ⟨v.major, v.minor, v.patch, []⟩

/-- From the spec's words, for refinement comparison with the code (C1):
the *fresh candidate* — "bump the branch's own highest known released
triplet (ignoring prerelease suffixes, scanning this branch's resolved
tag set) by the requested type, then append `-<identifier>.<base>`". -/
def specFreshCandidate (ctx : CalcContext) : Option SemVer :=
  (getLatestVersion ((tagsToVersions ctx.branch.tags).map stripPre)).map
    (fun t => withPre (inc t ctx.nrType) ctx.branch.preId
      ctx.options.prereleaseIdentifierBase)

/-- From the spec's words, for refinement comparison with the code (C1):
on a prerelease branch with a last release, the semver-greater of the
continuation candidate (when it applies) and the fresh candidate; the
fresh candidate alone when the continuation does not apply. -/
def specNextPrerelease (ctx : CalcContext) : Option SemVer :=
  match ctx.lastRelease.version with
  | none => none
  | some lastV =>
    if continuationApplies lastV ctx.lastRelease.channels ctx.nrChannel then
      (specFreshCandidate ctx).map (fun fresh => highest (inc lastV .prerelease) fresh)
    else
      specFreshCandidate ctx

/-! ### Branch classification and validation (`src/lib/definitions/branches.js`) -/

/-- A maintenance range of the shape the spec gives (§3): `N.N.x` or
`N.x`.  `semver.validRange` normalises distinct shapes to distinct range
strings, so this structural form stands for the canonical key `uniqBy`
computes. -/
inductive MaintRange where
  | two (mj mn : Nat)
  | one (mj : Nat)
deriving DecidableEq, Repr

/-- The `range` field of a user branch declaration: JS `false`, a valid
maintenance range, or any other string (every non-maintenance string is
collapsed into `other`; all of them fail `isMaintenanceRange` and share
the `null` key `semver.validRange` gives invalid ranges). -/
inductive RangeField where
  | fls
  | maint (r : MaintRange)
  | other
deriving DecidableEq, Repr

/-- The `prerelease` field of a user branch declaration: a boolean
(`true` means "use the branch name as identifier") or an identifier
string. -/
inductive PrereleaseField where
  | bool (b : Bool)
  | str (s : String)
deriving DecidableEq, Repr

/-- A user branch declaration as classification sees it. -/
structure BranchDecl where
  name : String
  range : Option RangeField := none
  prerelease : Option PrereleaseField := none
deriving DecidableEq, Repr

/-- Is `c` a decimal digit. -/
def isDigitCh (c : Char) : Bool := '0' ≤ c ∧ c ≤ '9'

/-- Split a character list at every occurrence of a separator, like
`String.splitOn` with a one-character separator (structural, so that
concrete instances evaluate). -/
def splitChars (sep : Char) : List Char → List (List Char)
  | [] => [[]]
  | c :: rest =>
    let r := splitChars sep rest
    if c = sep then [] :: r
    else
      match r with
      | h :: t => (c :: h) :: t
      | [] => [[c]]

/-- Split at the *first* occurrence of a separator; `none` when the
separator does not occur. -/
def splitFirst (sep : Char) : List Char → Option (List Char × List Char)
  | [] => none
  | c :: rest =>
    if c = sep then some ([], rest)
    else (splitFirst sep rest).map (fun p => (c :: p.1, p.2))

/-- Modelled from the spec (§3, §4.2): `isMaintenanceRange` from
`lib/utils.js` on a branch *name* — the name has the shape `N.N.x` or
`N.x` with `N` a digit run. -/
def isMaintenanceRangeStr (s : String) : Bool :=
  match splitChars '.' s.data with
  | [a, b, c] => !a.isEmpty && a.all isDigitCh && !b.isEmpty && b.all isDigitCh && c = ['x']
  | [a, b] => !a.isEmpty && a.all isDigitCh && b = ['x']
  | _ => false

/-- `maintenance.filter` (`src/lib/definitions/branches.js` line 7): the
branch has a non-nil, non-`false` range, or its name is itself a
maintenance range. -/
def maintenanceFilter (b : BranchDecl) : Bool :=
  (match b.range with
   | some .fls => false
   | some _ => true
   | none => false) || isMaintenanceRangeStr b.name

/-- `prerelease.filter` (`src/lib/definitions/branches.js` line 13): the
branch has a non-nil, non-`false` prerelease field. -/
def prereleaseFilter (b : BranchDecl) : Bool :=
  match b.prerelease with
  | none => false
  | some (.bool false) => false
  | some _ => true

/-- `maintenance.branchValidator`
(`src/lib/definitions/branches.js` line 8): a nil range passes, otherwise
the range must be a maintenance range (JS `false` and non-maintenance
strings fail the regex test). -/
def maintenanceBranchValidator (b : BranchDecl) : Bool :=
  match b.range with
  | none => true
  | some (.maint _) => true
  | some _ => false

/-- The key `maintenance.branchesValidator` deduplicates by:
`semver.validRange(range)` — the canonical range for valid maintenance
ranges, `null` (here `none`) for anything else. -/
def rangeKey (b : BranchDecl) : Option MaintRange :=
  match b.range with
  | some (.maint r) => some r
  | _ => none

/-- The key `prerelease.branchesValidator` deduplicates by: the *raw*
`prerelease` field value (`uniqBy(branches, "prerelease")`), not the
effective identifier. -/
def preKey (b : BranchDecl) : Option PrereleaseField := b.prerelease

/-- The effective prerelease identifier of a branch: the field when it is
a string, the branch name otherwise (`prerelease === true ? name :
prerelease`, `src/lib/definitions/branches.js` line 30). -/
def effectiveId (b : BranchDecl) : String :=
  match b.prerelease with
  | some (.str s) => s
  | _ => b.name

/-- JS truthiness of the prerelease field
(`Boolean(prerelease)`): `true` and non-empty strings are truthy. -/
def truthyPre (b : BranchDecl) : Bool :=
  match b.prerelease with
  | some (.bool true) => true
  | some (.str s) => s ≠ ""
  | _ => false

/-- The options `prerelease.branchValidator` destructures, at the string
level at which it builds its candidate version. -/
structure ValidatorConfig where
  respectPackageJsonVersion : Bool := false
  firstRelease : String := "1.0.0"
  prereleaseIdentifierBase : String := "1"
  packageVersion : String := "1.0.0"
deriving DecidableEq, Repr

/-- Is `c` a legal semver identifier character (`[0-9A-Za-z-]`). -/
def isIdentCh (c : Char) : Bool :=
  isDigitCh c ∨ ('a' ≤ c ∧ c ≤ 'z') ∨ ('A' ≤ c ∧ c ≤ 'Z') ∨ c = '-'

/-- No leading zero in a digit run (a multi-character run may not start
with `0`). -/
def noLeadingZerosCh : List Char → Bool
  | '0' :: _ :: _ => false
  | _ => true

/-- A numeric field of the version core: digits only, no leading zeros. -/
def validNum (l : List Char) : Bool :=
  !l.isEmpty && l.all isDigitCh && noLeadingZerosCh l

/-- A prerelease identifier: non-empty, identifier characters, and when
fully numeric, no leading zeros. -/
def validPreIdent (l : List Char) : Bool :=
  !l.isEmpty && l.all isIdentCh && (!(l.all isDigitCh) || noLeadingZerosCh l)

/-- A build identifier: non-empty identifier characters. -/
def validBuildIdent (l : List Char) : Bool := !l.isEmpty && l.all isIdentCh

/-- The `major.minor.patch` core. -/
def validTriplet (l : List Char) : Bool :=
  match splitChars '.' l with
  | [a, b, c] => validNum a && validNum b && validNum c
  | _ => false

/-- Version core plus optional `-prerelease` part (everything after the
first dash belongs to the prerelease, since the core cannot contain a
dash). -/
def validCorePre (l : List Char) : Bool :=
  match splitFirst '-' l with
  | none => validTriplet l
  | some p => validTriplet p.1 && (splitChars '.' p.2).all validPreIdent

/-- `semver.valid` on the characters of a raw string: optional leading
`v`, the `major.minor.patch` core, an optional prerelease and an
optional build part after `+` (a second `+` makes a build identifier
fail the character check). -/
def semverValidChars (l : List Char) : Bool :=
  let l := match l with
    | 'v' :: rest => rest
    | _ => l
  match splitFirst '+' l with
  | none => validCorePre l
  | some p => validCorePre p.1 && (splitChars '.' p.2).all validBuildIdent

/-- `semver.valid` on a raw string. -/
def semverValidStr (s : String) : Bool := semverValidChars s.data

/-- Is `c` ASCII whitespace (what `trim` strips). -/
def isSpaceCh (c : Char) : Bool := c = ' ' ∨ c = '\t' ∨ c = '\n' ∨ c = '\r'

/-- `semver.clean`'s preprocessing: trim whitespace and strip every
leading `=` or `v` (`version.trim().replace(/^[=v]+/, "")`).  The code
only ever uses `semver.valid(semver.clean(x))` as a boolean, which
equals `semverValidStr` of this string. -/
def semverCleanStr (s : String) : String :=
  ⟨((s.data.dropWhile isSpaceCh).reverse.dropWhile isSpaceCh).reverse.dropWhile
    (fun c => c = '=' ∨ c = 'v')⟩

/-- `prerelease.branchValidator`
(`src/lib/definitions/branches.js` lines 14–32): the prerelease field is
truthy and `firstRelease-identifier.base` (with `packageVersion` for
`firstRelease` when `respectPackageJsonVersion` is set) is a valid semver
string. -/
def prereleaseBranchValidator (cfg : ValidatorConfig) (b : BranchDecl) : Bool :=
  let firstRelease :=
    if cfg.respectPackageJsonVersion then cfg.packageVersion else cfg.firstRelease
  truthyPre b ∧
    semverValidStr
      (firstRelease ++ "-" ++ effectiveId b ++ "." ++ cfg.prereleaseIdentifierBase)

/-- `uniqBy` key dedup: keep the first declaration per key. -/
def dedupByKeys {κ : Type} [DecidableEq κ] (key : BranchDecl → κ) :
    List BranchDecl → List κ
  | [] => []
  | b :: rest =>
    let ks := dedupByKeys key rest
    if key b ∈ ks then ks else key b :: ks

/-- `uniqBy(branches, key).length === branches.length`: no two branches
share a key. -/
def uniqBy {κ : Type} [DecidableEq κ] (key : BranchDecl → κ) (bs : List BranchDecl) : Bool :=
  (dedupByKeys key bs).length = bs.length

/-- Modelled from the spec (§4.2): the classification of
`lib/branches/index.js` (not among the given sources) — the three filters
of `src/lib/definitions/branches.js` applied as mutually exclusive
partition rules in priority order maintenance, prerelease, release. -/
def maintenanceBranches (bs : List BranchDecl) : List BranchDecl :=
  bs.filter maintenanceFilter

/-- Prerelease partition: prerelease-filtered branches not already
claimed by maintenance. -/
def prereleaseBranches (bs : List BranchDecl) : List BranchDecl :=
  (bs.filter (fun b => ¬ maintenanceFilter b)).filter prereleaseFilter

/-- Release partition: everything the other two filters reject
(`release.filter`, `src/lib/definitions/branches.js` line 38). -/
def releaseBranches (bs : List BranchDecl) : List BranchDecl :=
  bs.filter (fun b => ¬ maintenanceFilter b ∧ ¬ prereleaseFilter b)

/-- Modelled from the spec (§4.2): the validation driver of
`lib/branches/index.js` (not among the given sources) — the classified
branch set is accepted when every per-branch validator and every
per-category set validator of `src/lib/definitions/branches.js`
passes (`release.branchesValidator` is
`branches.length <= 3 && branches.length > 0`). -/
def acceptedBranches (cfg : ValidatorConfig) (bs : List BranchDecl) : Bool :=
  let ms := maintenanceBranches bs
  let ps := prereleaseBranches bs
  let rs := releaseBranches bs
  ms.all maintenanceBranchValidator && uniqBy rangeKey ms &&
    ps.all (prereleaseBranchValidator cfg) && uniqBy preKey ps &&
    (decide (rs.length ≤ 3) && decide (rs.length > 0))

/-- From the spec's words, for refinement comparison with the code (C4):
a classified branch set is accepted exactly when maintenance ranges are
pairwise distinct, prerelease identifiers are pairwise distinct, and the
release-branch count is between 1 and 3. -/
def specAcceptedBranches (bs : List BranchDecl) : Bool :=
  uniqBy rangeKey (maintenanceBranches bs) &&
    uniqBy effectiveId (prereleaseBranches bs) &&
    (decide ((releaseBranches bs).length ≤ 3) &&
      decide ((releaseBranches bs).length > 0))

/-! ### Tag and channel resolution (`src/lib/branches/get-tags.js`) -/

/-- Does the first character list start the second (a structural
prefix test). -/
def leadsWith : List Char → List Char → Bool
  | [], _ => true
  | _ :: _, [] => false
  | a :: as, b :: bs => a = b && leadsWith as bs

/-- A tag template `prefix${version}suffix`: the `tagFormat` option with
its single `version` placeholder split out (`pre`/`post` hold no space,
the character `get-tags.js` substitutes for the placeholder before
deriving the matcher). -/
structure TagTemplate where
  pre : String := "v"
  post : String := ""
deriving DecidableEq, Repr

/-- `makeTag` / `template(tagFormat)({version})`: render a version string
through the template. -/
def renderTag (t : TagTemplate) (version : String) : String :=
  t.pre ++ version ++ t.post

/-- The semantics of the derived matcher
`^escapeRegExp(pre)(.+)escapeRegExp(post)`
(`src/lib/branches/get-tags.js` line 14) applied to a candidate tag name:
the literal prefix must start the tag, and the greedy `(.+)` capture is
the longest non-empty segment after it that is still followed by the
literal suffix (no end anchor, so trailing text may remain). -/
def matchCapture (t : TagTemplate) (tag : String) : Option String :=
  if leadsWith t.pre.data tag.data then
    let rest := tag.data.drop t.pre.data.length
    ((List.range rest.length).reverse.map (· + 1)).find?
      (fun n => leadsWith t.post.data (rest.drop n)) |>.map
      (fun n => ⟨rest.take n⟩)
  else none

/-- A JSON value, as far as the metadata notes need: the `channels` field
of the merged note. -/
inductive Json where
  | null
  | bool (b : Bool)
  | num (n : Int)
  | str (s : String)
  | arr (xs : List Json)
  | obj (kvs : List (String × Json))

/-- Look a key up in a JSON object (first binding wins); `none` on
non-objects. -/
def jlookup (j : Json) (k : String) : Option Json :=
  match j with
  | .obj kvs => (kvs.find? (fun kv => kv.1 = k)).map (·.2)
  | _ => none

/-- Read one channel entry of a note's `channels` array (`null` is the
default channel). -/
def jsonChannel : Json → Chan
  | .str s => some s
  | _ => none

/-- The channel list of a resolved tag
(`(await getNote(tag)).channels || [null]`,
`src/lib/branches/get-tags.js` line 24): the merged note's `channels`
array when present (an empty array stays empty — JS `[]` is truthy),
`[null]` otherwise. -/
def tagChannels (note : Json) : List Chan :=
  match jlookup note "channels" with
  | some (.arr cs) => cs.map jsonChannel
  | _ => [none]

/-- A resolved tag record as `get-tags.js` builds it. -/
structure TagRec where
  gitTag : String
  version : String
  channels : List Chan
deriving DecidableEq, Repr

/-- One step of the tag reducer
(`src/lib/branches/get-tags.js` lines 21–26): match the candidate against
the derived matcher; keep it iff the capture is valid semver after
cleaning, recording the merged note's channel list. -/
def tagFilterStep (tpl : TagTemplate) (noteOf : String → Json)
    (acc : List TagRec) (tag : String) : List TagRec :=
  match matchCapture tpl tag with
  | some version =>
    if semverValidStr (semverCleanStr version) then
      acc ++ [⟨tag, version, tagChannels (noteOf tag)⟩]
    else acc
  | none => acc

/-- The per-branch tag resolution: fold the reducer over the branch's
candidate tag names. -/
def resolveBranchTags (tpl : TagTemplate) (noteOf : String → Json)
    (tags : List String) : List TagRec :=
  tags.foldl (tagFilterStep tpl noteOf) []

/-! ### Metadata notes (`src/lib/git.js`, `getNote`) -/

mutual

/-- lodash `merge` as `getNote` uses it
(`src/lib/git.js` line 354): a deep merge where the second (current)
argument wins — objects merge key-wise, arrays merge index-wise, any
other pair is overwritten by the second value. -/
def jmerge : Json → Json → Json
  | .obj d, .obj s => .obj (jmergeObj d s)
  | .arr d, .arr s => .arr (jmergeArr d s)
  | _, s => s
termination_by _ b => (sizeOf b, 0)

/-- Key-wise object merge: fold the source bindings into the
destination. -/
def jmergeObj : List (String × Json) → List (String × Json) → List (String × Json)
  | d, [] => d
  | d, (k, v) :: rest => jmergeObj (jupsert d k v) rest
termination_by _ s => (sizeOf s, 0)

/-- Merge one binding into an object's binding list: deep-merge into an
existing binding of the same key, append otherwise. -/
def jupsert : List (String × Json) → String → Json → List (String × Json)
  | [], k, v => [(k, v)]
  | (k', v') :: t, k, v =>
    if k' = k then (k', jmerge v' v) :: t else (k', v') :: jupsert t k v
termination_by d _ v => (sizeOf v, d.length + 1)

/-- Index-wise array merge: positions present in both merge recursively;
the longer list supplies the remainder. -/
def jmergeArr : List Json → List Json → List Json
  | d, [] => d
  | [], s => s
  | a :: d, b :: s => jmerge a b :: jmergeArr d s
termination_by _ s => (sizeOf s, 0)

end

/-- `getNote` (`src/lib/git.js` lines 343–372): the legacy shared note
and the per-tag note, each parsed from JSON, a missing note (exit code 1)
standing in as the empty object via the `{ stdout: "{}" }` fallback; the
two parses are deep-merged with the per-tag (current) note taking
precedence.  Inputs are the parsed payloads (`none` = missing note); the
JSON text decoding itself happens at the subprocess boundary. -/
def getNote (legacy current : Option Json) : Json :=
  jmerge (legacy.getD (.obj [])) (current.getD (.obj []))

/-! ### The release pipeline orchestrator (`src/index.js`) -/

/-- An error raised by a plugin step (external code): an opaque label
plus its `semanticRelease` marker. -/
structure PErr where
  ptag : String
  semanticRelease : Bool
deriving DecidableEq, Repr

/-- The error codes the orchestrator itself can raise, plus `plugin` for
errors surfacing from plugin steps. -/
inductive ErrCode where
  | EGITNOPERMISSION
  | EINVALIDNEXTVERSION
  | EINVALIDMAINTENANCEMERGE
  | branchConfigError
  | configError
  | typeError
  | plugin (ptag : String)
deriving DecidableEq, Repr

/-- An error as the orchestrator sees it: code plus the
`semanticRelease` marker (`getError` products carry `true`). -/
structure Err where
  code : ErrCode
  semanticRelease : Bool
deriving DecidableEq, Repr

/-- A plugin error surfacing through the orchestrator. -/
def liftPErr (e : PErr) : Err := ⟨.plugin e.ptag, e.semanticRelease⟩

deriving instance DecidableEq for Except

/-- The outcome of one external step: a value, or the (possibly
aggregated) errors it threw. -/
abbrev StepOutcome (α : Type) := Except (List PErr) α

/-- A branch's version range as `semver.satisfies` consumes it: a
maintenance range, or the `>=lo [<hi]` ranges release branches get. -/
inductive BranchRange where
  | maint (r : MaintRange)
  | bounds (lo : SemVer) (hi : Option SemVer)
deriving DecidableEq, Repr

/-- `semver.satisfies` against a maintenance range (prerelease versions
never satisfy a plain range). -/
def satisfiesMaint (v : SemVer) : MaintRange → Bool
  | .two mj mn => v.pre.isEmpty && v.major == mj && v.minor == mn
  | .one mj => v.pre.isEmpty && v.major == mj

/-- `semver.satisfies` against a branch range. -/
def satisfiesRange (v : SemVer) : BranchRange → Bool
  | .maint r => satisfiesMaint v r
  | .bounds lo hi =>
    v.pre.isEmpty && !(semverGt lo v) &&
      (match hi with
       | none => true
       | some h => semverGt h v)

/-- `semver.satisfies(v, range)` with a possibly-absent range — an
undefined range satisfies nothing (`satisfies` returns false on an
invalid range). -/
def satisfiesOptRange (v : SemVer) : Option BranchRange → Bool
  | none => false
  | some r => satisfiesRange v r

/-- The current branch as `run` consumes it after resolution. -/
structure RunBranch where
  name : String
  btype : BranchType
  channel : Chan
  range : Option BranchRange
  mergeRange : Option BranchRange
  preId : String
  tags : List CTag
deriving DecidableEq, Repr

/-- Modelled from the spec (§4.5): the relevant slice of a
`getReleaseToAdd` result (`lib/get-release-to-add.js` is not among the
given sources) — the version being promoted to a new channel, its tag
name and the channel it is promoted to. -/
structure AddRelease where
  version : SemVer
  gitTag : String
  channel : Chan
deriving DecidableEq, Repr

/-- A release record returned by a publish/addChannel plugin (opaque to
the orchestrator, which only collects them). -/
abbrev Rel := String

/-- The environment of one invocation: the options and CI flags `run`
branches on, and the outcome of every external interaction (git
subprocess results, plugin step results), in the order `src/index.js`
consumes them. -/
structure Env where
  isCi : Bool
  isPr : Bool
  dryRunOpt : Bool
  noCi : Bool
  publishOnPr : Bool
  configOk : Bool
  vcfg : ValidatorConfig := {}
  branchDecls : List BranchDecl
  currentBranch : Option RunBranch
  authOk : Bool
  upToDate : Bool
  vcStep : StepOutcome Unit
  releaseToAdd : Option AddRelease
  acNotesStep : StepOutcome Unit
  acStep : StepOutcome (List Rel)
  acSuccessStep : StepOutcome Unit
  lastRelease : CLastRelease
  commits : List String
  analyzeStep : StepOutcome (Option ReleaseType)
  vrStep : StepOutcome Unit
  notesStep : StepOutcome Unit
  prepStep : StepOutcome Unit
  publishStep : StepOutcome (List Rel)
  successStep : StepOutcome Unit
  failStep : StepOutcome Unit
  calcOptions : CalcOptions := {}
  packageVersion : SemVer := DEFAULT_FIRST_RELEASE
  tagFormat : TagTemplate := {}

/-- The plugin lifecycle steps `run` invokes (the fail step is a
separate event carrying its error payload). -/
inductive StepKind where
  | verifyConditions
  | analyzeCommits
  | verifyRelease
  | generateNotes
  | prepare
  | publish
  | addChannel
  | success
deriving DecidableEq, Repr

/-- One observable action of the pipeline: a plugin step invocation
(with whether it succeeded), the fail step with its error payload, or a
git mutation (tag creation, note write, push). -/
inductive Event where
  | step (k : StepKind) (ok : Bool)
  | stepFail (errs : List Err) (ok : Bool)
  | gitTag (name : String)
  | gitNote (tagName : String)
  | gitPush
  | gitPushNotes
deriving DecidableEq, Repr

/-- Git mutations: tag creation, note writes and pushes. -/
def isMutation : Event → Bool
  | .gitTag _ => true
  | .gitNote _ => true
  | .gitPush => true
  | .gitPushNotes => true
  | _ => false

/-- `src/index.js` lines 43–46: outside a recognized CI environment,
without explicit dry-run/no-CI overrides, the run is forced into dry-run
mode. -/
def effectiveDryRun (env : Env) : Bool :=
  if !env.isCi && !env.dryRunOpt && !env.noCi then true else env.dryRunOpt

/-- Render a prerelease identifier back to its string form. -/
def preIdToString : PreId → String
  | .num n => toString n
  | .str s => s

/-- Dot-join rendered prerelease identifiers. -/
def preListToString : List PreId → String
  | [] => ""
  | [p] => preIdToString p
  | p :: rest => preIdToString p ++ "." ++ preListToString rest

/-- Render a version the way the calculator's result string reads. -/
def semverToString (v : SemVer) : String :=
  toString v.major ++ "." ++ toString v.minor ++ "." ++ toString v.patch ++
    (if v.pre.isEmpty then "" else "-" ++ preListToString v.pre)

/-- The `nextRelease` record assembled on the new-release path. -/
structure NextRel where
  rtype : ReleaseType
  channel : Chan
  version : SemVer
  gitTag : String
deriving DecidableEq, Repr

/-- The final value of one invocation: `false`, the `{ releases }`-only
record of `src/index.js` line 181, or the
`pick(context, ["lastRelease", "commits", "nextRelease", "releases"])`
record of line 231. -/
inductive Outcome where
  | noRelease
  | onlyReleases (releases : List Rel)
  | released (lastRelease : CLastRelease) (commits : List String)
      (next : NextRel) (releases : List Rel)
deriving DecidableEq, Repr

/-- The git mutations of the add-channel path
(`src/index.js` lines 126–134), skipped in dry-run mode: note update,
push, note push (no tag creation — the tag already exists). -/
def acMutations (dry : Bool) (tagName : String) : List Event :=
  if dry then [] else [.gitNote tagName, .gitPush, .gitPushNotes]

/-- The inner add-channel work (`src/index.js` lines 120–151):
regenerate notes, perform the git mutations unless dry-running, append
the promoted tag to the branch's in-memory tag list, then run the
AddChannel and Success steps.  Returns the collected releases and the
updated branch. -/
def acInner (env : Env) (dry : Bool) (br : RunBranch) (r : AddRelease) :
    List Event × Except (List Err) (List Rel × RunBranch) :=
  match env.acNotesStep with
  | .error es => ([.step .generateNotes false], .error (es.map liftPErr))
  | .ok _ =>
    let muts := acMutations dry r.gitTag
    let br' : RunBranch := { br with tags := br.tags ++ [⟨r.version, [r.channel]⟩] }
    match env.acStep with
    | .error es =>
      (.step .generateNotes true :: muts ++ [.step .addChannel false],
        .error (es.map liftPErr))
    | .ok rels =>
      match env.acSuccessStep with
      | .error es =>
        (.step .generateNotes true :: muts ++
            [.step .addChannel true, .step .success false],
          .error (es.map liftPErr))
      | .ok _ =>
        (.step .generateNotes true :: muts ++
            [.step .addChannel true, .step .success true],
          .ok (rels, br'))

/-- The add-channel path (`src/index.js` lines 110–157): nothing to do
without a pending promotion; a promoted version violating the branch's
merge range is a fatal `EINVALIDMAINTENANCEMERGE` (collected then thrown
at line 156, before any mutation of this path); otherwise the inner
work runs. -/
def acPhase (env : Env) (dry : Bool) (br : RunBranch) :
    List Event × Except (List Err) (List Rel × RunBranch) :=
  match env.releaseToAdd with
  | none => ([], .ok ([], br))
  | some r =>
    match br.mergeRange with
    | some mr =>
      if ¬ satisfiesRange r.version mr then
        ([], .error [⟨.EINVALIDMAINTENANCEMERGE, true⟩])
      else acInner env dry br r
    | none => acInner env dry br r

/-- The git mutations of the new-release path
(`src/index.js` lines 207–211), skipped in dry-run mode: tag creation,
note write, push, note push — in that order, before Publish. -/
def mainMutations (dry : Bool) (tagName : String) : List Event :=
  if dry then [] else [.gitTag tagName, .gitNote tagName, .gitPush, .gitPushNotes]

/-- The new-release tail of `run` (`src/index.js` lines 184–231), entered
once commit analysis produced a bump type: compute the next version
(`none` models the TypeError of an empty tag scan, a non-semantic-release
error), render the tag name, reject a version outside the branch's range
for every non-prerelease branch (`EINVALIDNEXTVERSION`), then VerifyRelease,
GenerateNotes, Prepare, the git mutations, Publish and Success. -/
def runRelease (env : Env) (dry : Bool) (br : RunBranch) (accum : List Rel)
    (t : ReleaseType) : List Event × Except (List Err) Outcome :=
  match getNextVersion ⟨⟨br.btype, br.preId, br.tags⟩, t, br.channel,
      env.lastRelease, env.packageVersion, env.calcOptions⟩ with
  | none => ([], .error [⟨.typeError, false⟩])
  | some version =>
    if br.btype ≠ .prerelease ∧ ¬ satisfiesOptRange version br.range then
      ([], .error [⟨.EINVALIDNEXTVERSION, true⟩])
    else
      match env.vrStep with
      | .error es => ([.step .verifyRelease false], .error (es.map liftPErr))
      | .ok _ =>
        match env.notesStep with
        | .error es =>
          ([.step .verifyRelease true, .step .generateNotes false],
            .error (es.map liftPErr))
        | .ok _ =>
          match env.prepStep with
          | .error es =>
            ([.step .verifyRelease true, .step .generateNotes true,
                .step .prepare false],
              .error (es.map liftPErr))
          | .ok _ =>
            match env.publishStep with
            | .error es =>
              ([Event.step .verifyRelease true, .step .generateNotes true,
                  .step .prepare true] ++
                  mainMutations dry (renderTag env.tagFormat (semverToString version)) ++
                  [.step .publish false],
                .error (es.map liftPErr))
            | .ok rels =>
              match env.successStep with
              | .error es =>
                ([Event.step .verifyRelease true, .step .generateNotes true,
                    .step .prepare true] ++
                    mainMutations dry (renderTag env.tagFormat (semverToString version)) ++
                    [.step .publish true, .step .success false],
                  .error (es.map liftPErr))
              | .ok _ =>
                ([Event.step .verifyRelease true, .step .generateNotes true,
                    .step .prepare true] ++
                    mainMutations dry (renderTag env.tagFormat (semverToString version)) ++
                    [.step .publish true, .step .success true],
                  .ok (.released env.lastRelease env.commits
                    ⟨t, br.channel, version,
                      renderTag env.tagFormat (semverToString version)⟩
                    (accum ++ rels)))

/-- Everything after a successful VerifyConditions
(`src/index.js` lines 108–231): the add-channel phase, then commit
analysis — no bump type ends the run with the accumulated add-channel
releases (or `false` when there are none); a bump type enters the
new-release tail with the (possibly tag-extended) branch. -/
def runMain (env : Env) (br : RunBranch) : List Event × Except (List Err) Outcome :=
  match (acPhase env (effectiveDryRun env) br).2 with
  | .error es => ((acPhase env (effectiveDryRun env) br).1, .error es)
  | .ok (accum, br') =>
    match env.analyzeStep with
    | .error es =>
      ((acPhase env (effectiveDryRun env) br).1 ++ [.step .analyzeCommits false],
        .error (es.map liftPErr))
    | .ok none =>
      ((acPhase env (effectiveDryRun env) br).1 ++ [.step .analyzeCommits true],
        .ok (if accum.isEmpty then .noRelease else .onlyReleases accum))
    | .ok (some t) =>
      ((acPhase env (effectiveDryRun env) br).1 ++ [.step .analyzeCommits true] ++
          (runRelease env (effectiveDryRun env) br' accum t).1,
        (runRelease env (effectiveDryRun env) br' accum t).2)

/-- The `run` routine of `src/index.js` (lines 38–232) as a trace/result
function of the environment: the PR gate (line 59), config verification
(line 65), branch resolution and validation (line 68, via
`acceptedBranches`), the untracked-branch and stale-branch benign exits,
the auth probe (`EGITNOPERMISSION`), VerifyConditions, and the main
body. -/
def run (env : Env) : List Event × Except (List Err) Outcome :=
  if env.isCi ∧ env.isPr ∧ ¬ env.noCi ∧ ¬ env.publishOnPr then ([], .ok .noRelease)
  else if ¬ env.configOk then ([], .error [⟨.configError, true⟩])
  else if ¬ acceptedBranches env.vcfg env.branchDecls then
    ([], .error [⟨.branchConfigError, true⟩])
  else
    match env.currentBranch with
    | none => ([], .ok .noRelease)
    | some br =>
      if ¬ env.authOk then
        if ¬ env.upToDate then ([], .ok .noRelease)
        else ([], .error [⟨.EGITNOPERMISSION, true⟩])
      else
        match env.vcStep with
        | .error es => ([.step .verifyConditions false], .error (es.map liftPErr))
        | .ok _ =>
          (.step .verifyConditions true :: (runMain env br).1, (runMain env br).2)

/-- Did a step outcome succeed. -/
def isOkOutcome {α : Type} : StepOutcome α → Bool
  | .ok _ => true
  | .error _ => false

/-- `callFail` wrapped around `run`
(`src/index.js` lines 248–257 and 278–285): on an error, the
`semanticRelease`-flagged subset of the extracted errors is computed;
when non-empty the Fail step runs with exactly that subset (its own
failure is logged, never raised), and the original error is re-raised
either way. -/
def runAndHandle (env : Env) : List Event × Except (List Err) Outcome :=
  match (run env).2 with
  | .ok o => ((run env).1, .ok o)
  | .error es =>
    if (es.filter (·.semanticRelease)).isEmpty then ((run env).1, .error es)
    else ((run env).1 ++
        [.stepFail (es.filter (·.semanticRelease)) (isOkOutcome env.failStep)],
      .error es)

/-- The C3 check on a trace: every event before the first successful
VerifyConditions invocation is not a git mutation. -/
def noMutationUntilVC (tr : List Event) : Bool :=
  (tr.takeWhile (fun e => e ≠ .step .verifyConditions true)).all
    (fun e => !isMutation e)

/-- The events C3's ordering clause talks about: tag creation, pushes to
the remote, and Publish step invocations. -/
def tagPushPublishEvent : Event → Bool
  | .gitTag _ => true
  | .gitPush => true
  | .step .publish _ => true
  | _ => false

/-- Is the event a Fail-step invocation. -/
def isFailEvent : Event → Bool
  | .stepFail _ _ => true
  | _ => false

/-- The C2 counterexample context: a release branch whose last release is
`0.0.1`. -/
def ctxC2 : CalcContext :=
  { branch := ⟨.release, "", [⟨⟨0, 0, 1, []⟩, [none]⟩]⟩,
    nrType := .major, nrChannel := none,
    lastRelease := ⟨some ⟨0, 0, 1, []⟩, [none]⟩ }

/-- The C1 counterexample context: a consistent prerelease-branch context
— tags `1.0.0` and `1.1.0-beta.1`, last release `1.1.0-beta.1` on channel
`beta`, a `patch` request targeting channel `beta`. -/
def ctxC1 : CalcContext :=
  { branch := ⟨.prerelease, "beta",
      [⟨⟨1, 0, 0, []⟩, [none]⟩,
       ⟨⟨1, 1, 0, [.str "beta", .num 1]⟩, [some "beta"]⟩]⟩,
    nrType := .patch, nrChannel := some "beta",
    lastRelease := ⟨some ⟨1, 1, 0, [.str "beta", .num 1]⟩, [some "beta"]⟩ }

/-- The C4 counterexample branch set: one release branch and two
prerelease branches declared with `prerelease: true`, so their effective
identifiers (the branch names `alpha`, `beta`) are distinct. -/
def declsC4 : List BranchDecl :=
  [⟨"master", none, none⟩,
   ⟨"alpha", none, some (.bool true)⟩,
   ⟨"beta", none, some (.bool true)⟩]

/-- A baseline concrete environment for witnesses and counterexamples: a
CI run on a `master` release branch with every external interaction
succeeding and no pending add-channel promotion. -/
def baseEnv : Env :=
  { isCi := true, isPr := false, dryRunOpt := false, noCi := false,
    publishOnPr := false, configOk := true,
    branchDecls := [⟨"master", none, none⟩],
    currentBranch := some ⟨"master", .release, none,
      some (.bounds ⟨1, 0, 0, []⟩ none), none, "",
      [⟨⟨1, 0, 0, []⟩, [none]⟩]⟩,
    authOk := true, upToDate := true,
    vcStep := .ok (), releaseToAdd := none,
    acNotesStep := .ok (), acStep := .ok [], acSuccessStep := .ok (),
    lastRelease := ⟨some ⟨1, 0, 0, []⟩, [none]⟩,
    commits := ["c1"],
    analyzeStep := .ok (some .patch),
    vrStep := .ok (), notesStep := .ok (), prepStep := .ok (),
    publishStep := .ok ["registry"], successStep := .ok (),
    failStep := .ok () }

/-- `baseEnv` with the rejected C4 branch declarations. -/
def envC4bad : Env := { baseEnv with branchDecls := declsC4 }

/-- Is the outcome the full four-field record. -/
def isFullResult : Outcome → Bool
  | .released _ _ _ _ => true
  | _ => false

/-- Is the outcome the `false` ("nothing published") value. -/
def isFalseResult : Outcome → Bool
  | .noRelease => true
  | _ => false

/-- Is the JSON value a scalar (neither object nor array), i.e. one the
deep merge overwrites instead of merging into. -/
def isScalar : Json → Bool
  | .obj _ => false
  | .arr _ => false
  | _ => true

/-- The C6 counterexample branch: a *release* branch whose range caps the
next version below `2.0.0`. -/
def brC6 : RunBranch :=
  ⟨"master", .release, none,
    some (.bounds ⟨1, 0, 0, []⟩ (some ⟨2, 0, 0, []⟩)), none, "",
    [⟨⟨1, 0, 0, []⟩, [none]⟩]⟩

/-- The C6 counterexample environment: commit analysis asks for a major
bump, pushing the next version to `2.0.0`, outside the release branch's
range. -/
def envC6 : Env :=
  { baseEnv with
    currentBranch := some brC6
    analyzeStep := .ok (some .major) }

/-- The C5 counterexample environment: a pending add-channel promotion
whose AddChannel step returns one release, and commit analysis finding
no relevant commits. -/
def envC5 : Env :=
  { baseEnv with
    releaseToAdd := some ⟨⟨1, 0, 0, []⟩, "v1.0.0", some "next"⟩
    acStep := .ok ["r1"]
    analyzeStep := .ok none }

/-- The C9 counterexample environment: VerifyConditions throws a plain
(non-semantic-release) error. -/
def envC9 : Env := { baseEnv with vcStep := .error [⟨"boom", false⟩] }

/-! ## Comparator lemmas -/

theorem preIdLt_irrefl (a : PreId) : preIdLt a a = false := by
  cases a with
  | num n => simp only [preIdLt, decide_eq_false_iff_not]; omega
  | str s => simp only [preIdLt, decide_eq_false_iff_not]; exact lt_irrefl s

theorem preIdLt_asymm {a b : PreId} (h : preIdLt a b = true) : preIdLt b a = false := by
  cases a with
  | num n =>
    cases b with
    | num m =>
      simp only [preIdLt, decide_eq_true_eq] at h
      simp only [preIdLt, decide_eq_false_iff_not]
      omega
    | str t => rfl
  | str s =>
    cases b with
    | num m => exact absurd h (by simp [preIdLt])
    | str t =>
      simp only [preIdLt, decide_eq_true_eq] at h
      simp only [preIdLt, decide_eq_false_iff_not]
      exact lt_asymm h

theorem preListGt_irrefl (l : List PreId) : preListGt l l = false := by
  induction l with
  | nil => rfl
  | cons a as ih =>
    show (if a = a then preListGt as as else preIdLt a a) = false
    rw [if_pos rfl]
    exact ih

theorem preListGt_asymm : ∀ {a b : List PreId},
    preListGt a b = true → preListGt b a = false := by
  intro a
  induction a with
  | nil =>
    intro b h
    exact absurd h (by cases b <;> simp [preListGt])
  | cons x xs ih =>
    intro b h
    cases b with
    | nil => rfl
    | cons y ys =>
      have h' : (if x = y then preListGt xs ys else preIdLt y x) = true := h
      show (if y = x then preListGt ys xs else preIdLt x y) = false
      by_cases hxy : x = y
      · subst hxy
        rw [if_pos rfl] at h'
        rw [if_pos rfl]
        exact ih h'
      · rw [if_neg hxy] at h'
        rw [if_neg (fun hyx => hxy hyx.symm)]
        exact preIdLt_asymm h'

theorem semverGt_irrefl (v : SemVer) : semverGt v v = false := by
  obtain ⟨a, b, c, p⟩ := v
  unfold semverGt
  dsimp only
  rw [if_pos rfl, if_pos rfl, if_pos rfl]
  cases p with
  | nil => rfl
  | cons q qs => exact preListGt_irrefl (q :: qs)

theorem semverGt_asymm {a b : SemVer} (h : semverGt a b = true) :
    semverGt b a = false := by
  obtain ⟨a1, a2, a3, a4⟩ := a
  obtain ⟨b1, b2, b3, b4⟩ := b
  unfold semverGt at h ⊢
  dsimp only at h ⊢
  by_cases h1 : a1 = b1
  · subst h1
    rw [if_pos rfl] at h ⊢
    by_cases h2 : a2 = b2
    · subst h2
      rw [if_pos rfl] at h ⊢
      by_cases h3 : a3 = b3
      · subst h3
        rw [if_pos rfl] at h ⊢
        cases a4 with
        | nil =>
          cases b4 with
          | nil => exact absurd h Bool.false_ne_true
          | cons y ys => rfl
        | cons x xs =>
          cases b4 with
          | nil => exact absurd h Bool.false_ne_true
          | cons y ys => exact preListGt_asymm h
      · rw [if_neg h3] at h
        rw [if_neg (fun hx => h3 hx.symm)]
        simp only [decide_eq_true_eq] at h
        simp only [decide_eq_false_iff_not]
        omega
    · rw [if_neg h2] at h
      rw [if_neg (fun hx => h2 hx.symm)]
      simp only [decide_eq_true_eq] at h
      simp only [decide_eq_false_iff_not]
      omega
  · rw [if_neg h1] at h
    rw [if_neg (fun hx => h1 hx.symm)]
    simp only [decide_eq_true_eq] at h
    simp only [decide_eq_false_iff_not]
    omega

theorem highest_cases (a b : SemVer) : highest a b = a ∨ highest a b = b := by
  unfold highest
  split
  · exact Or.inl rfl
  · exact Or.inr rfl

theorem semverGt_highest_left (a b : SemVer) : semverGt a (highest a b) = false := by
  unfold highest
  by_cases h : semverGt a b = true
  · rw [if_pos h]; exact semverGt_irrefl a
  · rw [if_neg h]; exact Bool.eq_false_iff.mpr h

theorem semverGt_highest_right (a b : SemVer) : semverGt b (highest a b) = false := by
  unfold highest
  by_cases h : semverGt a b = true
  · rw [if_pos h]; exact semverGt_asymm h
  · rw [if_neg h]; exact semverGt_irrefl b

theorem foldl_highest_mem (v : SemVer) (vs : List SemVer) :
    vs.foldl (fun acc x => if semverGt x acc then x else acc) v ∈ v :: vs := by
  induction vs generalizing v with
  | nil => simp
  | cons x xs ih =>
    simp only [List.foldl_cons]
    by_cases hx : semverGt x v = true
    · rw [if_pos hx]
      rcases List.mem_cons.mp (ih x) with h | h
      · rw [h]; simp
      · simp [h]
    · rw [if_neg hx]
      rcases List.mem_cons.mp (ih v) with h | h
      · rw [h]; simp
      · simp [h]

theorem getLatestVersion_mem {vs : List SemVer} {m : SemVer}
    (h : getLatestVersion vs = some m) : m ∈ vs := by
  cases vs with
  | nil => exact absurd h (by simp [getLatestVersion])
  | cons v rest =>
    simp only [getLatestVersion, Option.some.injEq] at h
    have := foldl_highest_mem v rest
    rw [h] at this
    exact this

theorem inc_minor_eq_patch {u : SemVer} (h : u.major = 0) :
    inc u .minor = inc u .patch := by
  unfold inc dampen
  rw [if_pos h, if_pos h]

theorem inc_major_eq_raw_minor {u : SemVer} (h : u.major = 0) :
    inc u .major = semverIncRaw u .minor := by
  unfold inc dampen
  rw [if_pos h]

/-! ## Claim theorems: the version calculator -/

/-- C10 (confirmed): the major-zero remap touches only
`major`/`minor`/`patch`; the `prerelease` increment used for the
continuation candidate passes through unchanged when the major is 0, so
on a 0.x prerelease version whose last identifier is the numeric counter
`n` the continuation candidate keeps the triple and carries counter
`n + 1`. -/
theorem inc_prerelease_passthrough (v : SemVer) (h : v.major = 0) :
    inc v .prerelease = semverIncRaw v .prerelease ∧
    (∀ pre n, v.pre = pre ++ [.num n] →
      inc v .prerelease = ⟨v.major, v.minor, v.patch, pre ++ [.num (n + 1)]⟩) := by
  constructor
  · unfold inc dampen
    rw [if_pos h]
  · intro pre n hpre
    have hb : bumpLastNum (pre ++ [.num n]) = pre ++ [.num (n + 1)] := by
      unfold bumpLastNum
      rw [List.reverse_append]
      simp [bumpLastNumRev]
    have hne : v.pre ≠ [] := by rw [hpre]; simp
    unfold inc dampen
    rw [if_pos h]
    show semverIncRaw v .prerelease = _
    unfold semverIncRaw
    rw [if_neg hne, hpre, hb]

/-- Witness for C10 at `0.1.0-beta.1`: the remap leaves `prerelease`
alone and the counter advances to 2. -/
theorem inc_prerelease_passthrough_witness :
    inc ⟨0, 1, 0, [.str "beta", .num 1]⟩ .prerelease =
      semverIncRaw ⟨0, 1, 0, [.str "beta", .num 1]⟩ .prerelease ∧
    inc ⟨0, 1, 0, [.str "beta", .num 1]⟩ .prerelease =
      ⟨0, 1, 0, [.str "beta", .num 2]⟩ :=
  ⟨(inc_prerelease_passthrough ⟨0, 1, 0, [.str "beta", .num 1]⟩ rfl).1,
    (inc_prerelease_passthrough ⟨0, 1, 0, [.str "beta", .num 1]⟩ rfl).2
      [.str "beta"] 1 rfl⟩

/-- C2 counterexample: at last release `0.0.1` (major 0) a requested
`major` bump yields `0.1.0` while a requested `minor` bump yields
`0.0.2` — the calculator does *not* return the same result for `major`
and `minor` at major 0 (the remap is one step, `major → minor`, not
`major → patch`; the spec's own §8 example table `0.0.2/0.0.2/0.1.0`
agrees with the code here). -/
theorem getNextVersion_major_ne_minor_at_zero :
    getNextVersion ctxC2 = some ⟨0, 1, 0, []⟩ ∧
    getNextVersion { ctxC2 with nrType := .minor } = some ⟨0, 0, 2, []⟩ ∧
    getNextVersion ctxC2 ≠ getNextVersion { ctxC2 with nrType := .minor } :=
  ⟨by decide, by decide, by decide⟩

/-- C2 amended: the remap is applied inside `inc`, keyed to the major of
the version actually incremented.  Hence (i) when the last release and
every branch tag have major 0, a requested `minor` returns the same as a
requested `patch`; and (ii) on non-prerelease branches with the last
release at major 0, a requested `major` returns the plain (undampened)
minor increment of the last release — which in general differs from the
result for a requested `minor`. -/
theorem getNextVersion_major_zero_dampening :
    (∀ (ctx : CalcContext) (v : SemVer), ctx.lastRelease.version = some v →
      v.major = 0 → (∀ t ∈ ctx.branch.tags, t.version.major = 0) →
      getNextVersion { ctx with nrType := .minor } =
        getNextVersion { ctx with nrType := .patch }) ∧
    (∀ (ctx : CalcContext) (v : SemVer), ctx.lastRelease.version = some v →
      v.major = 0 → ctx.branch.btype ≠ .prerelease →
      getNextVersion { ctx with nrType := .major } =
        some (semverIncRaw v .minor)) := by
  constructor
  · intro ctx v hv h0 htags
    obtain ⟨⟨bt, bid, btags⟩, t0, ch, lr, pv, opts⟩ := ctx
    dsimp only at hv htags ⊢
    unfold getNextVersion
    dsimp only
    rw [hv]
    dsimp only
    cases bt with
    | prerelease =>
      rw [if_pos rfl, if_pos rfl]
      by_cases hcont : continuationApplies v lr.channels ch = true
      · rw [if_pos hcont, if_pos hcont]
        cases hl : getLatestVersion (tagsToVersions btags) with
        | none => rfl
        | some latest =>
          have hmem := getLatestVersion_mem hl
          simp only [tagsToVersions, List.mem_map] at hmem
          obtain ⟨t, ht, hteq⟩ := hmem
          have hlm : latest.major = 0 := by rw [← hteq]; exact htags t ht
          dsimp only
          rw [inc_minor_eq_patch hlm]
      · rw [if_neg hcont, if_neg hcont]
        rw [inc_minor_eq_patch (show (⟨v.major, v.minor, v.patch, []⟩ : SemVer).major = 0 from h0)]
    | release =>
      rw [if_neg (by decide), if_neg (by decide)]
      rw [inc_minor_eq_patch h0]
    | maintenance =>
      rw [if_neg (by decide), if_neg (by decide)]
      rw [inc_minor_eq_patch h0]
  · intro ctx v hv h0 hty
    obtain ⟨⟨bt, bid, btags⟩, t0, ch, lr, pv, opts⟩ := ctx
    dsimp only at hv hty ⊢
    unfold getNextVersion
    dsimp only
    rw [hv]
    dsimp only
    cases bt with
    | prerelease => exact absurd rfl hty
    | release =>
      rw [if_neg (by decide)]
      rw [inc_major_eq_raw_minor h0]
    | maintenance =>
      rw [if_neg (by decide)]
      rw [inc_major_eq_raw_minor h0]

/-- Witness for the amended C2 at the release-branch context with last
release `0.0.1`: `minor` and `patch` coincide, and `major` yields the raw
minor increment. -/
theorem getNextVersion_major_zero_dampening_witness :
    getNextVersion { ctxC2 with nrType := .minor } =
      getNextVersion { ctxC2 with nrType := .patch } ∧
    getNextVersion { ctxC2 with nrType := .major } =
      some (semverIncRaw ⟨0, 0, 1, []⟩ .minor) :=
  ⟨getNextVersion_major_zero_dampening.1 ctxC2 ⟨0, 0, 1, []⟩ rfl rfl
      (by decide),
    getNextVersion_major_zero_dampening.2 ctxC2 ⟨0, 0, 1, []⟩ rfl rfl
      (by decide)⟩

/-- C1 counterexample: the spec's fresh candidate ("bump the branch's own
highest known released triplet, ignoring prerelease suffixes") would win
with `1.1.1-beta.1`, but the code's fresh candidate increments the
branch's highest tag version *with* its prerelease suffix
(`semver.inc("1.1.0-beta.1", "patch") = "1.1.0"`), loses to the
continuation candidate, and the code returns `1.1.0-beta.2`. -/
theorem getNextVersion_ne_specNextPrerelease :
    getNextVersion ctxC1 = some ⟨1, 1, 0, [.str "beta", .num 2]⟩ ∧
    specNextPrerelease ctxC1 = some ⟨1, 1, 1, [.str "beta", .num 1]⟩ ∧
    getNextVersion ctxC1 ≠ specNextPrerelease ctxC1 :=
  ⟨by decide, by decide, by decide⟩

/-- C1 amended: on a prerelease branch with a last release, when the
continuation candidate applies the result is the semver-greater of the
continuation candidate and the code's fresh candidate — the dampened
requested increment of the branch's semver-greatest tag version
*including* prerelease suffixes, suffixed `-identifier.base`; when the
continuation candidate does not apply the result is the dampened
requested increment of the last release's own bare triple, suffixed
`-identifier.base` (the branch tag set is not consulted). -/
theorem getNextVersion_prerelease_branch (ctx : CalcContext) (v : SemVer)
    (hty : ctx.branch.btype = .prerelease)
    (hv : ctx.lastRelease.version = some v) :
    (∀ latest,
      continuationApplies v ctx.lastRelease.channels ctx.nrChannel = true →
      getLatestVersion (tagsToVersions ctx.branch.tags) = some latest →
      ∃ r, getNextVersion ctx = some r ∧
        (r = inc v .prerelease ∨
          r = withPre (inc latest ctx.nrType) ctx.branch.preId
            ctx.options.prereleaseIdentifierBase) ∧
        semverGt (inc v .prerelease) r = false ∧
        semverGt (withPre (inc latest ctx.nrType) ctx.branch.preId
          ctx.options.prereleaseIdentifierBase) r = false) ∧
    (continuationApplies v ctx.lastRelease.channels ctx.nrChannel = false →
      getNextVersion ctx = some (withPre (inc (stripPre v) ctx.nrType)
        ctx.branch.preId ctx.options.prereleaseIdentifierBase)) := by
  constructor
  · intro latest hcont hl
    refine ⟨highest (inc v .prerelease)
      (withPre (inc latest ctx.nrType) ctx.branch.preId
        ctx.options.prereleaseIdentifierBase), ?_, highest_cases _ _,
      semverGt_highest_left _ _, semverGt_highest_right _ _⟩
    unfold getNextVersion
    rw [hv]
    dsimp only
    rw [if_pos hty, if_pos hcont, hl]
  · intro hcont
    have hcont' : ¬ continuationApplies v ctx.lastRelease.channels ctx.nrChannel = true := by
      rw [hcont]; exact Bool.false_ne_true
    unfold getNextVersion
    rw [hv]
    dsimp only
    rw [if_pos hty, if_neg hcont']
    rfl

/-- Witness for the amended C1 at the concrete prerelease context
`ctxC1` (continuation applies, branch-greatest tag `1.1.0-beta.1`); the
result is one of the two candidates and beats both. -/
theorem getNextVersion_prerelease_branch_witness :
    ∃ r, getNextVersion ctxC1 = some r ∧
      (r = inc ⟨1, 1, 0, [.str "beta", .num 1]⟩ .prerelease ∨
        r = withPre (inc ⟨1, 1, 0, [.str "beta", .num 1]⟩ ctxC1.nrType)
          ctxC1.branch.preId ctxC1.options.prereleaseIdentifierBase) ∧
      semverGt (inc ⟨1, 1, 0, [.str "beta", .num 1]⟩ .prerelease) r = false ∧
      semverGt (withPre (inc ⟨1, 1, 0, [.str "beta", .num 1]⟩ ctxC1.nrType)
        ctxC1.branch.preId ctxC1.options.prereleaseIdentifierBase) r = false :=
  (getNextVersion_prerelease_branch ctxC1 ⟨1, 1, 0, [.str "beta", .num 1]⟩
    rfl rfl).1 ⟨1, 1, 0, [.str "beta", .num 1]⟩ (by decide) (by decide)

/-! ## Claim theorems: branch validation -/

theorem dedupByKeys_mem {κ : Type} [DecidableEq κ] (key : BranchDecl → κ)
    (l : List BranchDecl) (x : κ) :
    x ∈ dedupByKeys key l ↔ ∃ b ∈ l, key b = x := by
  induction l with
  | nil => simp [dedupByKeys]
  | cons b rest ih =>
    unfold dedupByKeys
    by_cases hb : key b ∈ dedupByKeys key rest
    · rw [if_pos hb]
      constructor
      · intro hx
        rcases ih.mp hx with ⟨c, hc, hck⟩
        exact ⟨c, List.mem_cons_of_mem b hc, hck⟩
      · intro ⟨c, hc, hck⟩
        rcases List.mem_cons.mp hc with rfl | hc'
        · rw [← hck]; exact hb
        · exact ih.mpr ⟨c, hc', hck⟩
    · rw [if_neg hb]
      constructor
      · intro hx
        rcases List.mem_cons.mp hx with rfl | hx'
        · exact ⟨b, List.mem_cons_self b rest, rfl⟩
        · rcases ih.mp hx' with ⟨c, hc, hck⟩
          exact ⟨c, List.mem_cons_of_mem b hc, hck⟩
      · intro ⟨c, hc, hck⟩
        rcases List.mem_cons.mp hc with rfl | hc'
        · rw [← hck]; exact List.mem_cons_self _ _
        · exact List.mem_cons_of_mem _ (ih.mpr ⟨c, hc', hck⟩)

theorem dedupByKeys_length_le {κ : Type} [DecidableEq κ] (key : BranchDecl → κ)
    (l : List BranchDecl) : (dedupByKeys key l).length ≤ l.length := by
  induction l with
  | nil => simp [dedupByKeys]
  | cons b rest ih =>
    unfold dedupByKeys
    by_cases hb : key b ∈ dedupByKeys key rest
    · rw [if_pos hb]
      exact Nat.le_succ_of_le ih
    · rw [if_neg hb]
      simpa using ih

theorem uniqBy_iff_pairwise {κ : Type} [DecidableEq κ] (key : BranchDecl → κ)
    (l : List BranchDecl) :
    uniqBy key l = true ↔ l.Pairwise (fun a b => key a ≠ key b) := by
  induction l with
  | nil => simp [uniqBy, dedupByKeys]
  | cons b rest ih =>
    unfold uniqBy dedupByKeys
    by_cases hb : key b ∈ dedupByKeys key rest
    · rw [if_pos hb]
      simp only [decide_eq_true_eq, List.length_cons]
      constructor
      · intro hlen
        exact absurd hlen (Nat.ne_of_lt
          (Nat.lt_succ_of_le (dedupByKeys_length_le key rest)))
      · intro hp
        rcases (dedupByKeys_mem key rest (key b)).mp hb with ⟨c, hc, hck⟩
        exact absurd hck.symm ((List.pairwise_cons.mp hp).1 c hc)
    · rw [if_neg hb]
      simp only [decide_eq_true_eq, List.length_cons, Nat.succ.injEq]
      rw [List.pairwise_cons]
      constructor
      · intro hlen
        refine ⟨?_, (ih.mp (by simp [uniqBy, hlen]))⟩
        intro c hc hck
        exact hb ((dedupByKeys_mem key rest (key b)).mpr ⟨c, hc, hck.symm⟩)
      · intro ⟨hhead, hp⟩
        have := ih.mpr hp
        simp only [uniqBy, decide_eq_true_eq] at this
        exact this

/-- C4 counterexample: in this set maintenance ranges are (vacuously)
pairwise distinct, the effective prerelease identifiers `alpha`/`beta`
are pairwise distinct and there is exactly one release branch, so the
claim's three conditions hold — yet validation rejects the set, because
`uniqBy(branches, "prerelease")` deduplicates by the raw field value and
both branches carry `true`. -/
theorem acceptedBranches_ne_spec :
    specAcceptedBranches declsC4 = true ∧
    acceptedBranches {} declsC4 = false :=
  ⟨by decide, by decide⟩

/-- C4 amended: a classified branch set is accepted by validation iff
(i) every maintenance branch's range is nil or a syntactically valid
maintenance range, (ii) the canonical maintenance range keys are pairwise
distinct, (iii) every prerelease branch's field is truthy and combines
with the first-release version and base into a valid semver, (iv) the
*raw* prerelease field values (not the effective identifiers) are
pairwise distinct, and (v) the release-branch count is between 1 and 3;
moreover a set failing validation ends the run with a fatal configuration
error (or an even earlier benign exit) with an empty event trace — in
particular before any git mutation. -/
theorem acceptedBranches_iff :
    (∀ (cfg : ValidatorConfig) (bs : List BranchDecl),
      acceptedBranches cfg bs = true ↔
        ((∀ b ∈ maintenanceBranches bs, maintenanceBranchValidator b = true) ∧
          (maintenanceBranches bs).Pairwise (fun a b => rangeKey a ≠ rangeKey b) ∧
          (∀ b ∈ prereleaseBranches bs, prereleaseBranchValidator cfg b = true) ∧
          (prereleaseBranches bs).Pairwise (fun a b => preKey a ≠ preKey b) ∧
          (releaseBranches bs).length ≤ 3 ∧ 1 ≤ (releaseBranches bs).length)) ∧
    (∀ env : Env, acceptedBranches env.vcfg env.branchDecls = false →
      (run env).1 = [] ∧
        ((run env).2 = .error [⟨.branchConfigError, true⟩] ∨
          (run env).2 = .error [⟨.configError, true⟩] ∨
          (run env).2 = .ok .noRelease)) := by
  constructor
  · intro cfg bs
    unfold acceptedBranches
    simp only [Bool.and_eq_true, List.all_eq_true, decide_eq_true_eq,
      uniqBy_iff_pairwise]
    constructor
    · intro ⟨⟨⟨⟨hmv, hmu⟩, hpv⟩, hpu⟩, h3, h1⟩
      exact ⟨hmv, hmu, hpv, hpu, h3, h1⟩
    · intro ⟨hmv, hmu, hpv, hpu, h3, h1⟩
      exact ⟨⟨⟨⟨hmv, hmu⟩, hpv⟩, hpu⟩, h3, h1⟩
  · intro env hrej
    unfold run
    by_cases hpr : env.isCi ∧ env.isPr ∧ ¬ env.noCi ∧ ¬ env.publishOnPr
    · rw [if_pos hpr]
      exact ⟨rfl, Or.inr (Or.inr rfl)⟩
    · rw [if_neg hpr]
      by_cases hcfg : ¬ env.configOk = true
      · rw [if_pos hcfg]
        exact ⟨rfl, Or.inr (Or.inl rfl)⟩
      · rw [if_neg hcfg]
        rw [if_pos (by rw [hrej]; exact Bool.false_ne_true)]
        exact ⟨rfl, Or.inl rfl⟩

/-- Witness for the amended C4: a valid two-branch set (a release branch
and one maintenance branch) is accepted, and a rejecting environment
built over `declsC4` produces an empty trace and a fatal branch
configuration error. -/
theorem acceptedBranches_iff_witness :
    (acceptedBranches {} [⟨"master", none, none⟩,
        ⟨"1.x", some (.maint (.one 1)), none⟩] = true) ∧
    ((run (envC4bad)).1 = [] ∧
      ((run envC4bad).2 = .error [⟨.branchConfigError, true⟩] ∨
        (run envC4bad).2 = .error [⟨.configError, true⟩] ∨
        (run envC4bad).2 = .ok .noRelease)) :=
  ⟨(acceptedBranches_iff.1 {} _).mpr (by
      refine ⟨?_, ?_, ?_, ?_, ?_, ?_⟩ <;> decide),
    acceptedBranches_iff.2 envC4bad (by decide)⟩

/-! ## Claim theorems: tag resolution -/

theorem tagFilterStep_sub {tpl : TagTemplate} {noteOf : String → Json}
    {acc : List TagRec} {t : String} {rec : TagRec}
    (h : rec ∈ acc) : rec ∈ tagFilterStep tpl noteOf acc t := by
  unfold tagFilterStep
  cases matchCapture tpl t with
  | none => exact h
  | some v =>
    dsimp only
    split
    · exact List.mem_append_left _ h
    · exact h

theorem foldl_tagFilterStep_sub {tpl : TagTemplate} {noteOf : String → Json}
    (tags : List String) (acc : List TagRec) {rec : TagRec} (h : rec ∈ acc) :
    rec ∈ tags.foldl (tagFilterStep tpl noteOf) acc := by
  induction tags generalizing acc with
  | nil => exact h
  | cons t rest ih => exact ih _ (tagFilterStep_sub h)

theorem foldl_tagFilterStep_mem {tpl : TagTemplate} {noteOf : String → Json} :
    ∀ (tags : List String) (acc : List TagRec) (rec : TagRec),
      rec ∈ tags.foldl (tagFilterStep tpl noteOf) acc →
      rec ∈ acc ∨
        (rec.gitTag ∈ tags ∧ matchCapture tpl rec.gitTag = some rec.version ∧
          semverValidStr (semverCleanStr rec.version) = true ∧
          rec.channels = tagChannels (noteOf rec.gitTag)) := by
  intro tags
  induction tags with
  | nil => intro acc rec h; exact Or.inl h
  | cons t rest ih =>
    intro acc rec h
    rcases ih (tagFilterStep tpl noteOf acc t) rec h with h' | h'
    · unfold tagFilterStep at h'
      cases hm : matchCapture tpl t with
      | none => rw [hm] at h'; exact Or.inl h'
      | some v =>
        rw [hm] at h'
        dsimp only at h'
        by_cases hvld : semverValidStr (semverCleanStr v) = true
        · rw [if_pos hvld] at h'
          rcases List.mem_append.mp h' with ha | hb
          · exact Or.inl ha
          · rcases List.mem_singleton.mp hb with rfl
            exact Or.inr ⟨List.mem_cons_self _ _, hm, hvld, rfl⟩
        · rw [if_neg hvld] at h'
          exact Or.inl h'
    · exact Or.inr ⟨List.mem_cons_of_mem _ h'.1, h'.2⟩

theorem foldl_tagFilterStep_keep {tpl : TagTemplate} {noteOf : String → Json} :
    ∀ (tags : List String) (acc : List TagRec) (t : String), t ∈ tags →
      ∀ v, matchCapture tpl t = some v →
      semverValidStr (semverCleanStr v) = true →
      (⟨t, v, tagChannels (noteOf t)⟩ : TagRec) ∈
        tags.foldl (tagFilterStep tpl noteOf) acc := by
  intro tags
  induction tags with
  | nil => intro acc t ht; exact absurd ht (List.not_mem_nil t)
  | cons u rest ih =>
    intro acc t ht v hm hvld
    rcases List.mem_cons.mp ht with rfl | ht'
    · simp only [List.foldl_cons]
      apply foldl_tagFilterStep_sub
      unfold tagFilterStep
      rw [hm]
      dsimp only
      rw [if_pos hvld]
      exact List.mem_append_right _ (List.mem_singleton.mpr rfl)
    · simp only [List.foldl_cons]
      exact ih _ t ht' v hm hvld

/-- C7 (confirmed): during tag resolution a candidate is kept exactly
when the derived matcher captures a label that passes semver validation
after cleaning; every kept record carries its capture as the version and
the merged note's channel list, which defaults to `[null]` when the
merged note has no `channels` field. -/
theorem resolveBranchTags_spec (tpl : TagTemplate) (noteOf : String → Json)
    (tags : List String) :
    (∀ rec ∈ resolveBranchTags tpl noteOf tags,
      rec.gitTag ∈ tags ∧ matchCapture tpl rec.gitTag = some rec.version ∧
        semverValidStr (semverCleanStr rec.version) = true ∧
        rec.channels = tagChannels (noteOf rec.gitTag)) ∧
    (∀ t ∈ tags, ∀ v, matchCapture tpl t = some v →
      semverValidStr (semverCleanStr v) = true →
      (⟨t, v, tagChannels (noteOf t)⟩ : TagRec) ∈
        resolveBranchTags tpl noteOf tags) ∧
    (∀ note : Json, jlookup note "channels" = none → tagChannels note = [none]) := by
  refine ⟨?_, ?_, ?_⟩
  · intro rec h
    rcases foldl_tagFilterStep_mem tags [] rec h with h' | h'
    · exact absurd h' (List.not_mem_nil rec)
    · exact h'
  · intro t ht v hm hvld
    unfold resolveBranchTags
    exact foldl_tagFilterStep_keep tags [] t ht v hm hvld
  · intro note h
    unfold tagChannels
    rw [h]

/-- Witness for C7: with the default `v`-prefixed template and empty
merged notes, `v1.0.0` is kept with version label `1.0.0` and the
default `[null]` channel list. -/
theorem resolveBranchTags_spec_witness :
    (⟨"v1.0.0", "1.0.0", [none]⟩ : TagRec) ∈
      resolveBranchTags {} (fun _ => Json.obj []) ["v1.0.0", "junk"] :=
  (resolveBranchTags_spec {} (fun _ => Json.obj []) ["v1.0.0", "junk"]).2.1
    "v1.0.0" (by decide) "1.0.0" (by decide) (by decide)

/-! ## Claim theorems: metadata notes -/

theorem jmerge_scalar_right (a : Json) {v : Json} (hv : isScalar v = true) :
    jmerge a v = v := by
  rw [jmerge.eq_def]
  cases a <;> cases v <;>
    first
      | rfl
      | exact absurd hv (by simp [isScalar])

theorem jupsert_lookup_self {d : List (String × Json)} {k : String} {v : Json}
    (hv : isScalar v = true) :
    (((jupsert d k v).find? (fun kv => kv.1 = k)).map (·.2)) = some v := by
  induction d with
  | nil =>
    simp [jupsert, List.find?]
  | cons kv t ih =>
    obtain ⟨k', v'⟩ := kv
    by_cases hk : k' = k
    · subst hk
      simp only [jupsert, if_pos rfl]
      simp [List.find?, jmerge_scalar_right v' hv]
    · simp only [jupsert, if_neg hk]
      simpa [List.find?, hk] using ih

theorem jupsert_lookup_ne {d : List (String × Json)} {k2 : String} {v2 : Json}
    {k : String} (hk : k2 ≠ k) :
    (((jupsert d k2 v2).find? (fun kv => kv.1 = k)).map (·.2)) =
      ((d.find? (fun kv => kv.1 = k)).map (·.2)) := by
  induction d with
  | nil => simp [jupsert, List.find?, hk]
  | cons kv t ih =>
    obtain ⟨k', v'⟩ := kv
    by_cases hk' : k' = k2
    · subst hk'
      simp only [jupsert, if_pos rfl]
      simp [List.find?, hk]
    · simp only [jupsert, if_neg hk']
      by_cases hkk : k' = k
      · simp [List.find?, hkk]
      · simpa [List.find?, hkk] using ih

theorem jmergeObj_lookup_absent {s d : List (String × Json)} {k : String}
    (habs : ∀ kv ∈ s, kv.1 ≠ k) :
    (((jmergeObj d s).find? (fun kv => kv.1 = k)).map (·.2)) =
      ((d.find? (fun kv => kv.1 = k)).map (·.2)) := by
  induction s generalizing d with
  | nil => simp only [jmergeObj]
  | cons kv rest ih =>
    obtain ⟨k2, v2⟩ := kv
    simp only [jmergeObj]
    rw [ih (fun kv hkv => habs kv (List.mem_cons_of_mem _ hkv))]
    exact jupsert_lookup_ne (habs ⟨k2, v2⟩ (List.mem_cons_self _ _))

theorem jmergeObj_lookup_scalar {s d : List (String × Json)} {k : String}
    {v : Json} (hfind : ((s.find? (fun kv => kv.1 = k)).map (·.2)) = some v)
    (hv : isScalar v = true) (hnd : (s.map Prod.fst).Nodup) :
    (((jmergeObj d s).find? (fun kv => kv.1 = k)).map (·.2)) = some v := by
  induction s generalizing d with
  | nil => simp [List.find?] at hfind
  | cons kv rest ih =>
    obtain ⟨k1, v1⟩ := kv
    simp only [jmergeObj]
    by_cases hk : k1 = k
    · subst hk
      have hv1 : v1 = v := by
        simpa [List.find?] using hfind
      subst hv1
      have habs : ∀ kv ∈ rest, kv.1 ≠ k1 := by
        intro kv hkv heq
        have hm : kv.1 ∈ rest.map Prod.fst := List.mem_map_of_mem Prod.fst hkv
        rw [heq] at hm
        exact (List.nodup_cons.mp hnd).1 hm
      rw [jmergeObj_lookup_absent habs]
      exact jupsert_lookup_self hv
    · have hfind' : ((rest.find? (fun kv => kv.1 = k)).map (·.2)) = some v := by
        simpa [List.find?, hk] using hfind
      exact ih hfind' (List.nodup_cons.mp hnd).2

/-- C8 (confirmed): `getNote` treats each missing note as the empty
object, deep-merges the legacy parse with the per-tag parse giving the
per-tag note precedence (a scalar binding of the current note always
wins; keys absent from the current note keep their legacy value), and
merges arrays index-wise — legacy channels `["a"]` with current
channels `["b"]` give `["b"]`, and legacy `["a","c"]` with current
`["b"]` give `["b","c"]` (current precedence on overlapping positions,
union otherwise). -/
theorem getNote_spec :
    getNote none none = .obj [] ∧
    (∀ l c, getNote (some l) (some c) = jmerge l c ∧
      getNote none (some c) = jmerge (.obj []) c ∧
      getNote (some l) none = jmerge l (.obj [])) ∧
    (∀ d s k v, jlookup (.obj s) k = some v → isScalar v = true →
      (s.map Prod.fst).Nodup → jlookup (jmerge (.obj d) (.obj s)) k = some v) ∧
    (∀ d s k, (∀ kv ∈ s, kv.1 ≠ k) →
      jlookup (jmerge (.obj d) (.obj s)) k = jlookup (.obj d) k) ∧
    getNote (some (.obj [("channels", .arr [.str "a"])]))
        (some (.obj [("channels", .arr [.str "b"])])) =
      .obj [("channels", .arr [.str "b"])] ∧
    getNote (some (.obj [("channels", .arr [.str "a", .str "c"])]))
        (some (.obj [("channels", .arr [.str "b"])])) =
      .obj [("channels", .arr [.str "b", .str "c"])] := by
  refine ⟨?_, ?_, ?_, ?_, ?_, ?_⟩
  · simp [getNote, jmerge, jmergeObj]
  · intro l c; exact ⟨rfl, rfl, rfl⟩
  · intro d s k v hfind hv hnd
    simp only [jmerge]
    exact jmergeObj_lookup_scalar hfind hv hnd
  · intro d s k habs
    simp only [jmerge]
    exact jmergeObj_lookup_absent habs
  · simp [getNote, jmerge, jmergeObj, jupsert, jmergeArr]
  · simp [getNote, jmerge, jmergeObj, jupsert, jmergeArr]

/-- Witness for C8: a scalar key conflict resolved in favour of the
current note at a concrete pair of notes. -/
theorem getNote_spec_witness :
    jlookup (jmerge (.obj [("a", Json.num 1)]) (.obj [("a", Json.num 2)])) "a" =
      some (Json.num 2) :=
  getNote_spec.2.2.1 [("a", Json.num 1)] [("a", Json.num 2)] "a" (Json.num 2)
    (by simp [jlookup, List.find?]) rfl (by simp)

/-! ## Pipeline lemmas -/

theorem mapLift_ne_single (es : List PErr) (c : ErrCode) (b : Bool)
    (hc : ∀ p, c ≠ .plugin p) : es.map liftPErr ≠ [⟨c, b⟩] := by
  intro h
  cases es with
  | nil => simp at h
  | cons e rest =>
    simp only [List.map_cons, List.cons.injEq] at h
    have hcode : ErrCode.plugin e.ptag = c := congrArg Err.code h.1
    exact hc e.ptag hcode.symm

theorem run_eq_of_gates {env : Env} {br : RunBranch}
    (h1 : ¬ (env.isCi = true ∧ env.isPr = true ∧ ¬ env.noCi = true ∧
      ¬ env.publishOnPr = true))
    (h2 : env.configOk = true)
    (h3 : acceptedBranches env.vcfg env.branchDecls = true)
    (h4 : env.currentBranch = some br)
    (h5 : env.authOk = true)
    (h6 : env.vcStep = .ok ()) :
    run env = (Event.step .verifyConditions true :: (runMain env br).1,
      (runMain env br).2) := by
  unfold run
  rw [if_neg h1, if_neg (not_not_intro h2), if_neg (not_not_intro h3), h4]
  dsimp only
  rw [if_neg (not_not_intro h5), h6]

theorem acPhase_ok_inv {env : Env} {dry : Bool} {br : RunBranch}
    {accum : List Rel} {br' : RunBranch}
    (h : (acPhase env dry br).2 = .ok (accum, br')) :
    (env.releaseToAdd = none ∧ accum = [] ∧ br' = br) ∨
    (∃ r, env.releaseToAdd = some r ∧ env.acStep = .ok accum ∧
      br' = { br with tags := br.tags ++ [⟨r.version, [r.channel]⟩] }) := by
  unfold acPhase at h
  cases hr : env.releaseToAdd with
  | none =>
    rw [hr] at h
    dsimp only at h
    injection h with h'
    injection h' with ha hb
    exact Or.inl ⟨rfl, ha.symm, hb.symm⟩
  | some r =>
    rw [hr] at h
    dsimp only at h
    have hinner : (acInner env dry br r).2 = .ok (accum, br') := by
      cases hm : br.mergeRange with
      | none => rw [hm] at h; exact h
      | some mr =>
        rw [hm] at h
        dsimp only at h
        by_cases hs : ¬ satisfiesRange r.version mr = true
        · rw [if_pos hs] at h; exact absurd h (by simp)
        · rw [if_neg hs] at h; exact h
    unfold acInner at hinner
    cases hn : env.acNotesStep with
    | error es => rw [hn] at hinner; exact absurd hinner (by simp)
    | ok u =>
      rw [hn] at hinner
      dsimp only at hinner
      cases hacs : env.acStep with
      | error es => rw [hacs] at hinner; exact absurd hinner (by simp)
      | ok rels =>
        rw [hacs] at hinner
        dsimp only at hinner
        cases hsc : env.acSuccessStep with
        | error es => rw [hsc] at hinner; exact absurd hinner (by simp)
        | ok u2 =>
          rw [hsc] at hinner
          dsimp only at hinner
          injection hinner with h'
          injection h' with ha hb
          exact Or.inr ⟨r, rfl, by rw [ha], hb.symm⟩

theorem runRelease_ok {env : Env} {dry : Bool} {br : RunBranch}
    {accum : List Rel} {t : ReleaseType} {o : Outcome}
    (h : (runRelease env dry br accum t).2 = .ok o) :
    ∃ version rels,
      getNextVersion ⟨⟨br.btype, br.preId, br.tags⟩, t, br.channel,
        env.lastRelease, env.packageVersion, env.calcOptions⟩ = some version ∧
      env.publishStep = .ok rels ∧
      o = .released env.lastRelease env.commits
        ⟨t, br.channel, version, renderTag env.tagFormat (semverToString version)⟩
        (accum ++ rels) ∧
      (runRelease env dry br accum t).1 =
        [Event.step .verifyRelease true, .step .generateNotes true,
          .step .prepare true] ++
          mainMutations dry (renderTag env.tagFormat (semverToString version)) ++
          [.step .publish true, .step .success true] := by
  unfold runRelease at h ⊢
  cases hg : getNextVersion ⟨⟨br.btype, br.preId, br.tags⟩, t, br.channel,
      env.lastRelease, env.packageVersion, env.calcOptions⟩ with
  | none => rw [hg] at h; exact absurd h (by simp)
  | some version =>
    rw [hg] at h
    dsimp only at h ⊢
    by_cases hrange : br.btype ≠ .prerelease ∧
        ¬ satisfiesOptRange version br.range = true
    · rw [if_pos hrange] at h; exact absurd h (by simp)
    · rw [if_neg hrange] at h ⊢
      cases hvr : env.vrStep with
      | error es => rw [hvr] at h; exact absurd h (by simp)
      | ok u =>
        rw [hvr] at h
        dsimp only at h ⊢
        cases hgn : env.notesStep with
        | error es => rw [hgn] at h; exact absurd h (by simp)
        | ok u2 =>
          rw [hgn] at h
          dsimp only at h ⊢
          cases hprep : env.prepStep with
          | error es => rw [hprep] at h; exact absurd h (by simp)
          | ok u3 =>
            rw [hprep] at h
            dsimp only at h ⊢
            cases hpub : env.publishStep with
            | error es => rw [hpub] at h; exact absurd h (by simp)
            | ok rels =>
              rw [hpub] at h
              dsimp only at h ⊢
              cases hsucc : env.successStep with
              | error es => rw [hsucc] at h; exact absurd h (by simp)
              | ok u4 =>
                rw [hsucc] at h
                dsimp only at h ⊢
                injection h with h'
                exact ⟨version, rels, rfl, rfl, h'.symm, rfl⟩

theorem runRelease_not_invalid {env : Env} {dry : Bool} {br : RunBranch}
    {accum : List Rel} {t : ReleaseType} {version : SemVer}
    (hg : getNextVersion ⟨⟨br.btype, br.preId, br.tags⟩, t, br.channel,
      env.lastRelease, env.packageVersion, env.calcOptions⟩ = some version)
    (hrange : ¬ (br.btype ≠ .prerelease ∧
      ¬ satisfiesOptRange version br.range = true)) :
    (runRelease env dry br accum t).2 ≠ .error [⟨.EINVALIDNEXTVERSION, true⟩] := by
  have hplug : ∀ p, ErrCode.EINVALIDNEXTVERSION ≠ ErrCode.plugin p :=
    fun p h => ErrCode.noConfusion h
  unfold runRelease
  rw [hg]
  dsimp only
  rw [if_neg hrange]
  cases hvr : env.vrStep with
  | error es =>
    intro hcontra
    injection hcontra with h'
    exact mapLift_ne_single es _ _ hplug h'
  | ok u =>
    dsimp only
    cases hgn : env.notesStep with
    | error es =>
      intro hcontra
      injection hcontra with h'
      exact mapLift_ne_single es _ _ hplug h'
    | ok u2 =>
      dsimp only
      cases hprep : env.prepStep with
      | error es =>
        intro hcontra
        injection hcontra with h'
        exact mapLift_ne_single es _ _ hplug h'
      | ok u3 =>
        dsimp only
        cases hpub : env.publishStep with
        | error es =>
          intro hcontra
          injection hcontra with h'
          exact mapLift_ne_single es _ _ hplug h'
        | ok rels =>
          dsimp only
          cases hsucc : env.successStep with
          | error es =>
            intro hcontra
            injection hcontra with h'
            exact mapLift_ne_single es _ _ hplug h'
          | ok u4 =>
            dsimp only
            intro hcontra
            exact Except.noConfusion hcontra

theorem noMutationUntilVC_cons_vc (tail : List Event) :
    noMutationUntilVC (Event.step .verifyConditions true :: tail) = true := by
  unfold noMutationUntilVC
  rw [List.takeWhile_cons]
  simp

/-! ## Claim theorems: the pipeline -/

/-- C3 (confirmed): in every execution no git mutation (tag creation,
note write, push) precedes the successful VerifyConditions invocation;
and in a non-dry-run execution that produces a new-release record, the
filtered trace of tag/push/Publish events ends with tag creation, then
the push, then the Publish step. -/
theorem run_side_effect_order (env : Env) :
    noMutationUntilVC (run env).1 = true ∧
    (∀ lr c nr rels, effectiveDryRun env = false →
      (run env).2 = .ok (.released lr c nr rels) →
      [Event.gitTag nr.gitTag, Event.gitPush, Event.step .publish true] <:+
        ((run env).1.filter tagPushPublishEvent)) := by
  constructor
  · unfold run
    by_cases h1 : env.isCi = true ∧ env.isPr = true ∧ ¬ env.noCi = true ∧
        ¬ env.publishOnPr = true
    · rw [if_pos h1]; rfl
    · rw [if_neg h1]
      by_cases h2 : ¬ env.configOk = true
      · rw [if_pos h2]; rfl
      · rw [if_neg h2]
        by_cases h3 : ¬ acceptedBranches env.vcfg env.branchDecls = true
        · rw [if_pos h3]; rfl
        · rw [if_neg h3]
          cases h4 : env.currentBranch with
          | none => rfl
          | some br =>
            dsimp only
            by_cases h5 : ¬ env.authOk = true
            · rw [if_pos h5]
              by_cases h6 : ¬ env.upToDate = true
              · rw [if_pos h6]; rfl
              · rw [if_neg h6]; rfl
            · rw [if_neg h5]
              cases h6 : env.vcStep with
              | error es => rfl
              | ok u => exact noMutationUntilVC_cons_vc _
  · intro lr c nr rels hdry h
    by_cases h1 : env.isCi = true ∧ env.isPr = true ∧ ¬ env.noCi = true ∧
        ¬ env.publishOnPr = true
    · unfold run at h
      rw [if_pos h1] at h
      exact absurd h (by simp)
    · by_cases h2 : env.configOk = true
      · by_cases h3 : acceptedBranches env.vcfg env.branchDecls = true
        · cases h4 : env.currentBranch with
          | none =>
            unfold run at h
            rw [if_neg h1, if_neg (not_not_intro h2),
              if_neg (not_not_intro h3), h4] at h
            exact absurd h (by simp)
          | some br =>
            by_cases h5 : env.authOk = true
            · cases h6 : env.vcStep with
              | error es =>
                unfold run at h
                rw [if_neg h1, if_neg (not_not_intro h2),
                  if_neg (not_not_intro h3), h4] at h
                dsimp only at h
                rw [if_neg (not_not_intro h5), h6] at h
                exact absurd h (by simp)
              | ok u =>
                obtain ⟨⟩ := u
                rw [run_eq_of_gates h1 h2 h3 h4 h5 h6] at h ⊢
                dsimp only at h ⊢
                unfold runMain at h ⊢
                cases hac : (acPhase env (effectiveDryRun env) br).2 with
                | error es =>
                  rw [hac] at h
                  exact absurd h (by simp)
                | ok p =>
                  obtain ⟨accum, br'⟩ := p
                  rw [hac] at h
                  dsimp only at h ⊢
                  cases han : env.analyzeStep with
                  | error es =>
                    rw [han] at h
                    exact absurd h (by simp)
                  | ok ot =>
                    cases ot with
                    | none =>
                      rw [han] at h
                      dsimp only at h
                      by_cases he : accum.isEmpty = true
                      · rw [if_pos he] at h; exact absurd h (by simp)
                      · rw [if_neg he] at h; exact absurd h (by simp)
                    | some t =>
                      rw [han] at h
                      dsimp only at h ⊢
                      obtain ⟨version, rels2, hg, hpub, ho, htr⟩ := runRelease_ok h
                      injection ho with hlr hc hnr hrels
                      rw [htr, hnr]
                      dsimp only
                      simp only [mainMutations, hdry, if_neg Bool.false_ne_true,
                        List.filter_append, List.filter_cons, List.filter_nil]
                      simp only [tagPushPublishEvent]
                      exact List.suffix_append _ _
            · unfold run at h
              rw [if_neg h1, if_neg (not_not_intro h2),
                if_neg (not_not_intro h3), h4] at h
              dsimp only at h
              rw [if_pos (fun hh => h5 hh)] at h
              by_cases h6 : ¬ env.upToDate = true
              · rw [if_pos h6] at h; exact absurd h (by simp)
              · rw [if_neg h6] at h; exact absurd h (by simp)
        · unfold run at h
          rw [if_neg h1, if_neg (not_not_intro h2),
            if_pos (fun hh => h3 hh)] at h
          exact absurd h (by simp)
      · unfold run at h
        rw [if_neg h1, if_pos (fun hh => h2 hh)] at h
        exact absurd h (by simp)

/-- Witness for C3 at the concrete baseline environment: a full
non-dry-run release whose relevant trace ends tag → push → Publish. -/
theorem run_side_effect_order_witness :
    noMutationUntilVC (run baseEnv).1 = true ∧
    [Event.gitTag "v1.0.1", Event.gitPush, Event.step .publish true] <:+
      ((run baseEnv).1.filter tagPushPublishEvent) :=
  ⟨(run_side_effect_order baseEnv).1,
    (run_side_effect_order baseEnv).2 ⟨some ⟨1, 0, 0, []⟩, [none]⟩ ["c1"]
      ⟨.patch, none, ⟨1, 0, 1, []⟩, "v1.0.1"⟩ ["registry"] (by decide) (by decide)⟩

/-- C5 counterexample: an invocation whose add-channel phase collected a
release and whose commit analysis found no bump returns the
`{ releases }`-only record of `src/index.js` line 181 — neither `false`
nor a record with the four fields `lastRelease`, `commits`,
`nextRelease`, `releases`. -/
theorem run_returns_releases_only_record :
    (run envC5).2 = .ok (.onlyReleases ["r1"]) ∧
    isFalseResult (.onlyReleases ["r1"]) = false ∧
    isFullResult (.onlyReleases ["r1"]) = false :=
  ⟨by decide, rfl, rfl⟩

/-- C5 amended: the final result is `false`, the `{ releases }`-only
record (exactly when commit analysis yields no bump size but add-channel
results were accumulated — the list is then non-empty and is precisely
the AddChannel step's return), or the full
`{ lastRelease, commits, nextRelease, releases }` record. -/
theorem run_result_forms :
    (∀ (env : Env) (rels : List Rel),
      (run env).2 = .ok (.onlyReleases rels) →
      rels ≠ [] ∧ env.analyzeStep = .ok none ∧ env.acStep = .ok rels) ∧
    (∀ (env : Env) (br : RunBranch) (accum : List Rel) (br' : RunBranch),
      ¬ (env.isCi = true ∧ env.isPr = true ∧ ¬ env.noCi = true ∧
        ¬ env.publishOnPr = true) →
      env.configOk = true →
      acceptedBranches env.vcfg env.branchDecls = true →
      env.currentBranch = some br →
      env.authOk = true →
      env.vcStep = .ok () →
      (acPhase env (effectiveDryRun env) br).2 = .ok (accum, br') →
      env.analyzeStep = .ok none →
      (run env).2 = .ok (if accum.isEmpty then Outcome.noRelease
        else .onlyReleases accum)) := by
  constructor
  · intro env rels h
    by_cases h1 : env.isCi = true ∧ env.isPr = true ∧ ¬ env.noCi = true ∧
        ¬ env.publishOnPr = true
    · unfold run at h
      rw [if_pos h1] at h
      exact absurd h (by simp)
    · by_cases h2 : env.configOk = true
      · by_cases h3 : acceptedBranches env.vcfg env.branchDecls = true
        · cases h4 : env.currentBranch with
          | none =>
            unfold run at h
            rw [if_neg h1, if_neg (not_not_intro h2),
              if_neg (not_not_intro h3), h4] at h
            exact absurd h (by simp)
          | some br =>
            by_cases h5 : env.authOk = true
            · cases h6 : env.vcStep with
              | error es =>
                unfold run at h
                rw [if_neg h1, if_neg (not_not_intro h2),
                  if_neg (not_not_intro h3), h4] at h
                dsimp only at h
                rw [if_neg (not_not_intro h5), h6] at h
                exact absurd h (by simp)
              | ok u =>
                obtain ⟨⟩ := u
                rw [run_eq_of_gates h1 h2 h3 h4 h5 h6] at h
                dsimp only at h
                unfold runMain at h
                cases hac : (acPhase env (effectiveDryRun env) br).2 with
                | error es =>
                  rw [hac] at h
                  exact absurd h (by simp)
                | ok p =>
                  obtain ⟨accum, br'⟩ := p
                  rw [hac] at h
                  dsimp only at h
                  cases han : env.analyzeStep with
                  | error es =>
                    rw [han] at h
                    exact absurd h (by simp)
                  | ok ot =>
                    cases ot with
                    | none =>
                      rw [han] at h
                      dsimp only at h
                      by_cases he : accum.isEmpty = true
                      · rw [if_pos he] at h
                        exact absurd h (by simp)
                      · rw [if_neg he] at h
                        injection h with h'
                        injection h' with h''
                        subst h''
                        refine ⟨?_, rfl, ?_⟩
                        · intro hnil
                          rw [hnil] at he
                          exact he rfl
                        · rcases acPhase_ok_inv hac with ⟨_, hnil, _⟩ | ⟨r, _, hstep, _⟩
                          · rw [hnil] at he
                            exact absurd rfl he
                          · exact hstep
                    | some t =>
                      rw [han] at h
                      dsimp only at h
                      obtain ⟨version, rels2, hg, hpub, ho, htr⟩ := runRelease_ok h
                      exact absurd ho (by simp)
            · unfold run at h
              rw [if_neg h1, if_neg (not_not_intro h2),
                if_neg (not_not_intro h3), h4] at h
              dsimp only at h
              rw [if_pos (fun hh => h5 hh)] at h
              by_cases h6 : ¬ env.upToDate = true
              · rw [if_pos h6] at h; exact absurd h (by simp)
              · rw [if_neg h6] at h; exact absurd h (by simp)
        · unfold run at h
          rw [if_neg h1, if_neg (not_not_intro h2),
            if_pos (fun hh => h3 hh)] at h
          exact absurd h (by simp)
      · unfold run at h
        rw [if_neg h1, if_pos (fun hh => h2 hh)] at h
        exact absurd h (by simp)
  · intro env br accum br' h1 h2 h3 h4 h5 h6 hac han
    rw [run_eq_of_gates h1 h2 h3 h4 h5 h6]
    dsimp only
    unfold runMain
    rw [hac]
    dsimp only
    rw [han]

/-- Witness for the amended C5 at the concrete no-bump environment with
one accumulated add-channel release. -/
theorem run_result_forms_witness :
    (run envC5).2 = .ok (if List.isEmpty ["r1"] then Outcome.noRelease
      else .onlyReleases ["r1"]) :=
  run_result_forms.2 envC5 (baseEnv.currentBranch.getD brC6)
    ["r1"] { (baseEnv.currentBranch.getD brC6) with
      tags := (baseEnv.currentBranch.getD brC6).tags ++
        [⟨⟨1, 0, 0, []⟩, [some "next"]⟩] }
    (by decide) (by decide) (by decide) (by decide) (by decide) (by decide)
    (by decide) (by decide)

/-- C6 counterexample: on a *release* branch (not a maintenance branch)
whose range caps versions below `2.0.0`, a computed next version `2.0.0`
raises the fatal `EINVALIDNEXTVERSION` — the range validation is not
restricted to maintenance branches. -/
theorem run_invalid_on_release_branch :
    (run envC6).2 = .error [⟨.EINVALIDNEXTVERSION, true⟩] ∧
    envC6.currentBranch = some brC6 ∧
    brC6.btype = .release ∧
    brC6.btype ≠ .maintenance :=
  ⟨by decide, rfl, rfl, by decide⟩

/-- C6 amended: once the next version is computed, the fatal
`EINVALIDNEXTVERSION` is raised exactly when the branch is *not* a
prerelease branch (release and maintenance branches alike) and the
computed version does not satisfy the branch's declared range; prerelease
branches only are exempt from this validation. -/
theorem run_invalid_version_iff {env : Env} {br br' : RunBranch}
    {accum : List Rel} {t : ReleaseType} {version : SemVer}
    (h1 : ¬ (env.isCi = true ∧ env.isPr = true ∧ ¬ env.noCi = true ∧
      ¬ env.publishOnPr = true))
    (h2 : env.configOk = true)
    (h3 : acceptedBranches env.vcfg env.branchDecls = true)
    (h4 : env.currentBranch = some br)
    (h5 : env.authOk = true)
    (h6 : env.vcStep = .ok ())
    (hac : (acPhase env (effectiveDryRun env) br).2 = .ok (accum, br'))
    (han : env.analyzeStep = .ok (some t))
    (hg : getNextVersion ⟨⟨br'.btype, br'.preId, br'.tags⟩, t, br'.channel,
      env.lastRelease, env.packageVersion, env.calcOptions⟩ = some version) :
    (run env).2 = .error [⟨.EINVALIDNEXTVERSION, true⟩] ↔
      (br'.btype ≠ .prerelease ∧ ¬ satisfiesOptRange version br'.range = true) := by
  rw [run_eq_of_gates h1 h2 h3 h4 h5 h6]
  dsimp only
  unfold runMain
  rw [hac]
  dsimp only
  rw [han]
  dsimp only
  by_cases hrange : br'.btype ≠ .prerelease ∧
      ¬ satisfiesOptRange version br'.range = true
  · refine iff_of_true ?_ hrange
    unfold runRelease
    rw [hg]
    dsimp only
    rw [if_pos hrange]
  · exact iff_of_false (runRelease_not_invalid hg hrange) hrange

/-- Witness for the amended C6: at the concrete release-branch
environment the equivalence instantiates and yields the raised error. -/
theorem run_invalid_version_iff_witness :
    (run envC6).2 = .error [⟨.EINVALIDNEXTVERSION, true⟩] :=
  (@run_invalid_version_iff envC6 brC6 brC6 [] .major ⟨2, 0, 0, []⟩
    (by decide) (by decide) (by decide) (by decide) (by decide) (by decide)
    (by decide) (by decide) (by decide)).mpr (by decide)

/-- C9 counterexample: when `run` fails with an error none of whose
components carries the `semanticRelease` marker (a plain exception from
a plugin), the Fail step is *not* invoked — `callFail` filters the
extracted errors and only calls the step on a non-empty
semantic-release subset — though the original error is still
re-raised. -/
theorem runAndHandle_skips_fail_step :
    (runAndHandle envC9).2 = .error [⟨.plugin "boom", false⟩] ∧
    (runAndHandle envC9).1.all (fun e => !isFailEvent e) = true :=
  ⟨by decide, by decide⟩

/-- C9 amended: whenever `run` raises an error, the wrapper re-raises
exactly the original error (a Fail-step failure is only logged, never
substituted); the Fail step is invoked — with the
`semanticRelease`-flagged *subset* of the aggregated errors, not the full
set — precisely when that subset is non-empty. -/
theorem runAndHandle_fail_semantics (env : Env) (es : List Err)
    (h : (run env).2 = .error es) :
    (runAndHandle env).2 = .error es ∧
    (es.filter (·.semanticRelease) = [] →
      (runAndHandle env).1 = (run env).1) ∧
    (es.filter (·.semanticRelease) ≠ [] →
      (runAndHandle env).1 = (run env).1 ++
        [.stepFail (es.filter (·.semanticRelease)) (isOkOutcome env.failStep)]) := by
  unfold runAndHandle
  rw [h]
  dsimp only
  by_cases he : (es.filter (·.semanticRelease)).isEmpty = true
  · rw [if_pos he]
    refine ⟨rfl, fun _ => rfl, fun hne => ?_⟩
    exact absurd (List.isEmpty_iff.mp he) hne
  · rw [if_neg he]
    refine ⟨rfl, fun heq => ?_, fun _ => rfl⟩
    rw [heq] at he
    exact absurd rfl he

/-- Witness for the amended C9 at the concrete range-violation
environment, whose single error carries the `semanticRelease` marker:
the Fail step runs with that subset and the original error is
re-raised. -/
theorem runAndHandle_fail_semantics_witness :
    (runAndHandle envC6).2 = .error [⟨.EINVALIDNEXTVERSION, true⟩] ∧
    (runAndHandle envC6).1 = (run envC6).1 ++
      [.stepFail [⟨.EINVALIDNEXTVERSION, true⟩] true] :=
  ⟨(runAndHandle_fail_semantics envC6 [⟨.EINVALIDNEXTVERSION, true⟩]
      (by decide)).1,
    (runAndHandle_fail_semantics envC6 [⟨.EINVALIDNEXTVERSION, true⟩]
      (by decide)).2.2 (by decide)⟩

end SemRel
